import Mathlib

/-!
Verification of the composition planner and task supervisor of the
testground daemon (packages `pkg/api` and `pkg/engine`).

The Go sources are shallowly embedded as Lean definitions:

* Go `map[string]V` values are modelled as association lists
  (`TG.GoMap V := List (String × V)`) with first-match lookup.  All
  statements proved about maps are per-key lookup statements, which are
  insensitive to Go's unspecified map iteration order.  A `nil` map and an
  empty map behave identically under lookup, so the two are collapsed;
  the one place where the distinction is observable (aliasing of a non-nil
  map shared between a value receiver and its copy) is discussed at
  `TG.Composition.prepareForBuildReceiverAfter`.
* Go `uint` is modelled as `Nat`; where wrap-around at `2 ^ 64` is
  observable (the instance-count accumulator of `ValidateForRun`) the
  reduction modulo `2 ^ 64` is explicit.
* Go `float64` fields (`Instances.Percentage`) are modelled as `Rat`;
  the claims under study only use the value through the expression
  `math.Round(percentage * float64(total))`, which is modelled by the
  same expression over `Rat`.
* fallible functions return `Except`, and a Go `panic` (out-of-range
  slice index, nil-interface method call) is an explicit constructor of
  the result type.
-/

namespace TG

/-- Association-list model of a Go `map[string]V`.  Lookup is first match;
all operations the embedded code performs (insert-if-absent merges) keep
per-key lookups deterministic even though Go map iteration order is not. -/
abbrev GoMap (V : Type) : Type := List (String × V)

namespace GoMap

/-- Lookup in a Go map: first matching key. -/
def lookup {V : Type} (m : GoMap V) (k : String) : Option V :=
  match m with
  | [] => none
  | (k', v) :: rest => if k' = k then some v else lookup rest k

/-- Insert-if-absent merge: for each key of `src`, insert its value into
`dst` iff `dst` does not already bind the key.  This models the Go loops
`for k, v := range from { if _, ok := to[k]; !ok { to[k] = v } }` and the
`trickleMap` closure of `PrepareForRun` (including its `to == nil` branch,
which per-key behaves the same). -/
def trickle {V : Type} (dst src : GoMap V) : GoMap V :=
  dst ++ src.filter (fun p => (lookup dst p.1).isNone)

end GoMap

/-- Decidable equality for `Except` results (needed to evaluate the embedded
fallible functions on concrete inputs). -/
instance {E A : Type} [DecidableEq E] [DecidableEq A] : DecidableEq (Except E A) := fun a b =>
  match a, b with
  | .error e, .error e' =>
    if h : e = e' then .isTrue (by rw [h]) else .isFalse (by intro hc; cases hc; exact h rfl)
  | .error _, .ok _ => .isFalse (by intro hc; cases hc)
  | .ok _, .error _ => .isFalse (by intro hc; cases hc)
  | .ok a, .ok a' =>
    if h : a = a' then .isTrue (by rw [h]) else .isFalse (by intro hc; cases hc; exact h rfl)

/-- Values stored in `build_config` / `run_config` maps (`interface{}` in Go).
The embedded code never inspects these values (it only copies them around
keyed by string), so a small inductive with string leaves and one level of
string tables (as exercised by the repository's own tests) suffices. -/
inductive ConfigVal : Type
  | str (s : String)
  | table (t : List (String × String))
deriving DecidableEq, Repr

/-- Dependency (pkg/api/composition.go): `{Module, Target, Version}`. -/
structure Dependency where
  module : String
  target : String
  version : String
deriving DecidableEq, Repr

/-- Build block (pkg/api/composition.go): selectors and dependency overrides. -/
structure Build where
  selectors : List String
  dependencies : List Dependency
deriving DecidableEq, Repr

/-- Run block (pkg/api/composition.go): artifact, test params, profiles. -/
structure RunBlock where
  artifact : String
  testParams : GoMap String
  profiles : GoMap String
deriving DecidableEq, Repr

/-- Instances block (pkg/api/composition.go).  `Count` is a Go `uint`
(modelled as `Nat`), `Percentage` a `float64` (modelled as `Rat`). -/
structure Instances where
  count : Nat
  percentage : Rat
deriving DecidableEq, Repr

/-- Resources block (pkg/api/composition.go). -/
structure Resources where
  memory : String
  cpu : String
deriving DecidableEq, Repr

/-- Group (pkg/api/composition.go).  `calculatedInstanceCnt` is the cached
count filled in by `ValidateForRun`. -/
structure Group where
  id : String
  resources : Resources
  instances : Instances
  buildConfig : GoMap ConfigVal
  build : Build
  run : RunBlock
  calculatedInstanceCnt : Nat
deriving DecidableEq, Repr

/-- Metadata block (pkg/api/composition.go). -/
structure Metadata where
  name : String
  author : String
deriving DecidableEq, Repr

/-- Global block (pkg/api/composition.go). -/
structure Global where
  plan : String
  case_ : String
  totalInstances : Nat
  builder : String
  buildConfig : GoMap ConfigVal
  build : Option Build
  runner : String
  runConfig : GoMap ConfigVal
  run : Option RunBlock
  disableMetrics : Bool
deriving DecidableEq, Repr

/-- Composition (pkg/api/composition.go).  In Go, `Groups` is `[]*Group`
(a slice of pointers); the returned value of `PrepareForBuild`/`PrepareForRun`
is modelled by-value here, and the pointer aliasing between a value receiver
and its caller is modelled separately (see `prepareForBuildReceiverAfter`). -/
structure Composition where
  metadata : Metadata
  global : Global
  groups : List Group
deriving DecidableEq, Repr

/-- ValidateInstances (pkg/api/composition.go:482-491): the struct-level
validation registered for `Instances`.  It accepts (reports no error) iff
`(Count == 0 || Percentage == 0) && (float64(Count) + Percentage > 0)`. -/
def validateInstancesOk (i : Instances) : Bool :=
  (i.count == 0 || i.percentage == 0) && decide ((i.count : Rat) + i.percentage > 0)

/-- Go's string order (`<` of `strings.Compare`, `sort.Strings`): strings
compare as byte sequences, which on UTF-8 data is exactly the
codepoint-lexicographic order of the underlying character lists.  Stated
on `String.data` because this toolchain's built-in `String` order does not
compute in the kernel. -/
def strLt (a b : String) : Prop := a.data < b.data

/-- Non-strict version of `strLt` (`strings.Compare(a, b) <= 0`). -/
def strLe (a b : String) : Prop := a.data ≤ b.data

instance : DecidableRel strLt := fun a b =>
  inferInstanceAs (Decidable (a.data < b.data))

instance : DecidableRel strLe := fun a b =>
  inferInstanceAs (Decidable (a.data ≤ b.data))

instance : IsTotal String strLe := ⟨fun a b => le_total a.data b.data⟩

instance : IsTrans String strLe := ⟨fun _ _ _ h₁ h₂ => le_trans h₁ h₂⟩

instance : IsAntisymm String strLe :=
  ⟨fun _ _ h1 h2 => String.ext (le_antisymm h1 h2)⟩

/-- Go `sort.Strings`: sorts a string slice ascending.  Any sorting
algorithm yields the same result because the order is antisymmetric;
modelled by Mathlib's insertion sort. -/
def sortStrings (l : List String) : List String :=
  List.insertionSort strLe l

/-- Ordering used by `Build.BuildKey` to sort dependencies:
`strings.Compare(d[i].Module, d[j].Module) < 0` via `sort.SliceStable`.
A stable sort with respect to the strict module order is exactly an
insertion sort with respect to the non-strict module order (both are
sorted by module and keep equal-module entries in input order, and that
characterises a unique output). -/
def depLE (a b : Dependency) : Prop := strLe a.module b.module

instance : DecidableRel depLE := fun a b =>
  inferInstanceAs (Decidable (strLe a.module b.module))

instance : IsTotal Dependency depLE :=
  ⟨fun a b => le_total a.module.data b.module.data⟩

instance : IsTrans Dependency depLE :=
  ⟨fun _ _ _ h₁ h₂ => le_trans (α := List Char) h₁ h₂⟩

/-- Go `sort.SliceStable` on dependencies by module (see `depLE`). -/
def sortDeps (l : List Dependency) : List Dependency :=
  List.insertionSort depLE l

/-- Go `sort.SearchStrings(a, x)`: binary search for the smallest index `i`
with `a[i] >= x`.  On a sorted slice this is the number of leading elements
strictly below `x`, which is how it is modelled here (the embedded code only
ever calls it on slices it has just sorted). -/
def searchStrings (l : List String) (x : String) : Nat :=
  (l.takeWhile (fun s => decide (strLt s x))).length

/-- Modelled from the spec: a declared test-case parameter default is a JSON
value.  `PrepareForRun` passes string defaults through verbatim and encodes
any other default as its JSON text (`json.Marshal`); integers and booleans
cover the shapes the claims need, and their JSON text is their decimal /
`true`/`false` form. -/
inductive JsonVal : Type
  | str (s : String)
  | num (n : Int)
  | boolean (b : Bool)
deriving DecidableEq, Repr

/-- Stringification of a parameter default performed by `PrepareForRun`
(pkg/api/composition.go:432-444): strings pass through verbatim, any other
JSON value becomes its `json.Marshal` text. -/
def renderDefault : JsonVal → String
  | .str s => s
  | .num n => toString n
  | .boolean true => "true"
  | .boolean false => "false"

/-- Modelled from the spec: a test-case parameter of the manifest
(`TestPlanManifest` lives in pkg/api, outside src/): a type tag and a
default JSON value. -/
structure Parameter where
  type_ : String
  default : JsonVal
deriving DecidableEq, Repr

/-- Modelled from the spec: inclusive instance-count constraints of a test
case (`{minimum, maximum}`, Go `int`s). -/
structure InstanceConstraints where
  minimum : Int
  maximum : Int
deriving DecidableEq, Repr

/-- Modelled from the spec: a test case of the manifest: name, instance
constraints and declared parameters. -/
structure TestCase where
  name : String
  instances : InstanceConstraints
  parameters : GoMap Parameter
deriving DecidableEq, Repr

/-- Modelled from the spec: TestPlanManifest — the plan's name, the
advertised builders and runners (each with a default config map) and its
test cases.  A nil and an empty Go map are both modelled as `[]`. -/
structure TestPlanManifest where
  name : String
  builders : GoMap (GoMap ConfigVal)
  runners : GoMap (GoMap ConfigVal)
  testCases : List TestCase
deriving DecidableEq, Repr

/-- Modelled from the spec: `manifest.TestCaseByName` resolves a test case
by name ("Resolve the test case by name; fail TestCaseNotFound on miss"). -/
def TestPlanManifest.testCaseByName (m : TestPlanManifest) (n : String) : Option TestCase :=
  m.testCases.find? (fun tc => tc.name == n)

/-- Last-occurrence lookup of a module in a dependency list: the value the
Go map built by `Dependencies.AsMap` (pkg/api/composition.go:174-180)
associates with `m` (later entries of the list overwrite earlier ones). -/
def depLookupLast (d : List Dependency) (m : String) : Option String :=
  (d.reverse.find? (fun x => x.module == m)).map (fun x => x.version)

/-- Helper of `dedupFirst`: drop elements already in `seen`, keeping first
occurrences. -/
def dedupFirstAux (seen : List String) : List String → List String
  | [] => []
  | x :: xs => if x ∈ seen then dedupFirstAux seen xs else x :: dedupFirstAux (x :: seen) xs

/-- First-occurrence deduplication of a string list (used to enumerate the
distinct keys of a Go map modelled as an association list). -/
def dedupFirst (l : List String) : List String := dedupFirstAux [] l

/-- Dependencies.ApplyDefaults (pkg/api/composition.go:184-202): if the
receiver is empty, return the defaults verbatim; otherwise keep the
receiver's entries and append one entry per module of the defaults that the
receiver does not mention.  Appended entries take the module's last version
in the defaults list (`AsMap` semantics) and an empty target (the Go code
builds them with `Dependency{Module: mod, Version: ver}`, leaving `Target`
at its zero value).  Go iterates the defaults map in unspecified order;
the model fixes first-occurrence order, and every statement proved about
the result is a per-module lookup, insensitive to that order. -/
def Dependencies.applyDefaults (d defaults : List Dependency) : List Dependency :=
  if d.isEmpty then defaults
  else
    d ++ (dedupFirst (defaults.map (fun x => x.module))).filterMap (fun m =>
      if d.any (fun x => x.module == m) then none
      else (depLookupLast defaults m).map (fun v => ⟨m, "", v⟩))

/-- Errors of `PrepareForBuild` / `PrepareForRun`. -/
inductive PrepErr : Type
  | noBuildersSupported
  | unsupportedBuilder
  | testCaseNotFound
  | noRunnersSupported
  | unsupportedRunner
  | instanceCountOutOfRange
deriving DecidableEq, Repr

/-- Per-group part of step 4 of `PrepareForBuild`
(pkg/api/composition.go:312-320): merge the global dependency defaults into
the group (group wins by module) and adopt the global selectors verbatim
when the group declares none. -/
def Group.applyBuildDefaults (dflt : Build) (g : Group) : Group :=
  { g with build :=
      { selectors := if g.build.selectors.isEmpty then dflt.selectors else g.build.selectors
        dependencies := Dependencies.applyDefaults g.build.dependencies dflt.dependencies } }

/-- Per-group part of step 5 of `PrepareForBuild`
(pkg/api/composition.go:322-336): root-level keys of the (already merged)
global build config fill gaps in the group's build config. -/
def Group.applyBuildConfig (global : GoMap ConfigVal) (g : Group) : Group :=
  { g with buildConfig := GoMap.trickle g.buildConfig global }

/-- Success value of `PrepareForBuild` (pkg/api/composition.go:279-339,
steps 1 and 3-5): plan-name override, manifest builder-config merge into
the global build config, global build-defaults trickle into the groups,
and global build-config trickle into the groups, in the source's order. -/
def Composition.prepareForBuildApplied (c : Composition) (manifest : TestPlanManifest) :
    Composition :=
  let c := { c with global := { c.global with plan := manifest.name } }
  let c :=
    match GoMap.lookup manifest.builders c.global.builder with
    | some bcfg =>
      { c with global := { c.global with buildConfig := GoMap.trickle c.global.buildConfig bcfg } }
    | none => c
  let c :=
    match c.global.build with
    | some dflt => { c with groups := c.groups.map (Group.applyBuildDefaults dflt) }
    | none => c
  if c.global.buildConfig.isEmpty then c
  else { c with groups := c.groups.map (Group.applyBuildConfig c.global.buildConfig) }

/-- Composition.PrepareForBuild (pkg/api/composition.go:279-339).  The
returned composition is modelled by value; the Go value receiver's aliasing
with the caller is modelled by `prepareForBuildReceiverAfter`.  Both error
checks precede every mutation the success path performs, so hoisting them
in front of `prepareForBuildApplied` preserves the source's observable
behaviour. -/
def Composition.prepareForBuild (c : Composition) (manifest : TestPlanManifest) :
    Except PrepErr Composition :=
  if manifest.builders.isEmpty then .error .noBuildersSupported
  else if searchStrings (sortStrings (manifest.builders.map Prod.fst)) c.global.builder
      = (sortStrings (manifest.builders.map Prod.fst)).length then .error .unsupportedBuilder
  else .ok (c.prepareForBuildApplied manifest)

/-- Per-group part of the global run-defaults trickle of `PrepareForRun`
(pkg/api/composition.go:393-427): adopt the global artifact when the group
sets none, and merge test params and profiles with the group winning per
key. -/
def Group.applyRunDefaults (dflt : RunBlock) (g : Group) : Group :=
  { g with run :=
      { artifact := if g.run.artifact = "" then dflt.artifact else g.run.artifact
        testParams := GoMap.trickle g.run.testParams dflt.testParams
        profiles := GoMap.trickle g.run.profiles dflt.profiles } }

/-- Per-group application of the manifest's stringified test-case parameter
defaults (pkg/api/composition.go:446-457): inserted only where the key is
absent. -/
def Group.applyParamDefaults (defaults : GoMap String) (g : Group) : Group :=
  { g with run := { g.run with testParams := GoMap.trickle g.run.testParams defaults } }

/-- Stringified parameter defaults of a test case (the `defaults` map of
`PrepareForRun`, pkg/api/composition.go:432-444). -/
def renderedDefaults (tcase : TestCase) : GoMap String :=
  tcase.parameters.map (fun p => (p.1, renderDefault p.2.default))

/-- Success value of `PrepareForRun` (pkg/api/composition.go:347-460):
plan-name override, manifest runner-config merge, global run-defaults
trickle and manifest parameter defaults, in the source's order. -/
def Composition.prepareForRunApplied (c : Composition) (manifest : TestPlanManifest)
    (tcase : TestCase) : Composition :=
  let c := { c with global := { c.global with plan := manifest.name } }
  let c :=
    match GoMap.lookup manifest.runners c.global.runner with
    | some rcfg =>
      { c with global := { c.global with runConfig := GoMap.trickle c.global.runConfig rcfg } }
    | none => c
  let c :=
    match c.global.run with
    | some dflt => { c with groups := c.groups.map (Group.applyRunDefaults dflt) }
    | none => c
  { c with groups := c.groups.map (Group.applyParamDefaults (renderedDefaults tcase)) }

/-- Composition.PrepareForRun (pkg/api/composition.go:347-460): test-case
resolution, runner support check, total-instance bounds check, then the
success-path mutations of `prepareForRunApplied`.  The bounds check reads
`Global.TotalInstances`, which no earlier mutation touches, so hoisting the
error checks in front of the mutations preserves the source's observable
behaviour.  The Go `int(c.Global.TotalInstances)` conversion is modelled
as the `Nat → Int` coercion (the wrap-around above `2^63` is not reachable
in the statements proved). -/
def Composition.prepareForRun (c : Composition) (manifest : TestPlanManifest) :
    Except PrepErr Composition :=
  match manifest.testCaseByName c.global.case_ with
  | none => .error .testCaseNotFound
  | some tcase =>
    if manifest.runners.isEmpty then .error .noRunnersSupported
    else if searchStrings (sortStrings (manifest.runners.map Prod.fst)) c.global.runner
        = (sortStrings (manifest.runners.map Prod.fst)).length then .error .unsupportedRunner
    else if (c.global.totalInstances : Int) < tcase.instances.minimum ∨
        tcase.instances.maximum < (c.global.totalInstances : Int) then
      .error .instanceCountOutOfRange
    else .ok (c.prepareForRunApplied manifest tcase)

/-- Build.BuildKey (pkg/api/composition.go:153-172): the canonical
deduplication key.  Selectors are sorted ascending and joined with commas;
dependencies are stably sorted ascending by module and rendered as
`module:version|` chunks (the `Target` field is not written). -/
def Build.buildKey (b : Build) : String :=
  "selectors=" ++ String.intercalate "," (sortStrings b.selectors) ++ ";" ++
    "dependencies=" ++
      String.join ((sortDeps b.dependencies).map (fun d => d.module ++ ":" ++ d.version ++ "|"))

/-- Structural validation performed by `compositionValidator.Struct`
(go-playground/validator) on a composition for a run.  The tagged fields
are Global.Plan/Case/Builder/Runner (`required`: non-zero, i.e. non-empty
string), Global.TotalInstances (`required,gte=0`: nonzero) and Groups
(`required,gt=0`: non-empty).  The validator recurses into nested structs
but not into slice elements (no `dive` tag on Groups), so group-level
fields — including each group's `Instances` — are not structurally
validated here. -/
def Composition.structValidRun (c : Composition) : Bool :=
  (c.global.plan != "") && (c.global.case_ != "") && (c.global.totalInstances != 0) &&
    (c.global.builder != "") && (c.global.runner != "") && !c.groups.isEmpty

/-- Structural validation for a build (`StructExcept` skipping Global.Case,
Global.TotalInstances and Global.Runner; pkg/api/composition.go:236-247). -/
def Composition.structValidBuild (c : Composition) : Bool :=
  (c.global.plan != "") && (c.global.builder != "") && !c.groups.isEmpty

/-- Groups.Validate (pkg/api/composition.go:21-31): group ids must be
pairwise distinct (the Go loop fails at the first repeated id). -/
def Groups.idsUnique (gs : List Group) : Bool :=
  decide (gs.map Group.id).Nodup

/-- math.Round: round half away from zero. -/
def goRound (q : Rat) : Int :=
  if q < 0 then -(Int.floor (-q + 1/2)) else Int.floor (q + 1/2)

/-- Per-group instance count computed by `ValidateForRun`
(pkg/api/composition.go:261-263): the `count` field verbatim when nonzero,
else `uint(math.Round(percentage * float64(total)))`.  For results outside
`[0, 2^64)` the Go float-to-uint conversion is implementation-defined; the
model clamps negatives to `0` and wraps at `2^64`, and every theorem about
this function only relies on the in-range case. -/
def calcInstanceCount (total : Nat) (inst : Instances) : Nat :=
  if inst.count ≠ 0 then inst.count
  else (goRound (inst.percentage * (total : Rat))).toNat % (2 ^ 64)

/-- Groups of a composition with their `calculatedInstanceCnt` filled in,
as the loop of `ValidateForRun` leaves them. -/
def Composition.computedGroups (c : Composition) : List Group :=
  c.groups.map (fun g =>
    { g with calculatedInstanceCnt := calcInstanceCount c.global.totalInstances g.instances })

/-- Sum of the computed per-group instance counts. -/
def Composition.sumCalculated (c : Composition) : Nat :=
  (c.computedGroups.map (fun g => g.calculatedInstanceCnt)).sum

/-- Errors of `ValidateForRun` / `ValidateForBuild`, by semantics. -/
inductive ValErr : Type
  | structInvalid
  | instanceCountMismatch
  | duplicateGroupId
deriving DecidableEq, Repr

/-- Composition.ValidateForRun (pkg/api/composition.go:250-272): structural
validation, then the per-group count computation with the accumulated sum
(a Go `uint`, hence the explicit wrap at `2^64`) compared against
`Global.TotalInstances`, then group-id uniqueness.  On success the groups
carry their computed counts. -/
def Composition.validateForRun (c : Composition) : Except ValErr Composition :=
  if !c.structValidRun then .error .structInvalid
  else
    let gs := c.computedGroups
    let cum := (gs.map (fun g => g.calculatedInstanceCnt)).sum % (2 ^ 64)
    if c.global.totalInstances ≠ cum then .error .instanceCountMismatch
    else if Groups.idsUnique gs then .ok { c with groups := gs }
    else .error .duplicateGroupId

/-- Composition.ValidateForBuild (pkg/api/composition.go:236-247). -/
def Composition.validateForBuild (c : Composition) : Except ValErr Unit :=
  if !c.structValidBuild then .error .structInvalid
  else if Groups.idsUnique c.groups then .ok ()
  else .error .duplicateGroupId

/-- Placeholder group used as the (never reached) default of positional
accesses whose bounds have already been established. -/
def emptyGroup : Group :=
  ⟨"", ⟨"", ""⟩, ⟨0, 0⟩, [], ⟨[], []⟩, ⟨"", [], []⟩, 0⟩

/-- Result of Composition.PickGroups (pkg/api/composition.go:463-478).
The Go code first scans the index list and returns an `invalid group index`
error at the first index `i` with `i >= len(c.Groups)`; it then accesses
`c.Groups[i]` for every index, so an index that passed the scan but is
negative raises an out-of-range panic, modelled by `outOfRangePanic`. -/
inductive PickResult : Type
  | ok (c : Composition)
  | invalidGroupIndex (i : Int)
  | outOfRangePanic
deriving DecidableEq, Repr

/-- Composition.PickGroups (pkg/api/composition.go:463-478): clone with
only the groups at the given indices, in index-list order. -/
def Composition.pickGroups (c : Composition) (indices : List Int) : PickResult :=
  match indices.find? (fun i => decide ((c.groups.length : Int) ≤ i)) with
  | some i => .invalidGroupIndex i
  | none =>
    if indices.all (fun i => decide (0 ≤ i)) then
      .ok { c with groups := indices.map (fun i => c.groups.getD i.toNat emptyGroup) }
    else .outOfRangePanic

/-- State of the caller's composition after `PrepareForBuild` returns.
Go's value receiver copies the `Composition` struct, but `Groups` is a
slice of pointers (`[]*Group`): the copy and the caller share the `Group`
objects, so every per-group mutation the method performs is visible to the
caller, while writes to the copied `Global` struct (the plan-name override)
are not.  The method can additionally write manifest defaults through a
shared non-nil `Global.BuildConfig` map; the theorems below use
compositions whose build config is empty, for which this model is exact.
All group mutations happen after the last error return, so on error the
caller's groups are untouched. -/
def Composition.prepareForBuildReceiverAfter (c : Composition) (manifest : TestPlanManifest) :
    Composition :=
  match c.prepareForBuild manifest with
  | .ok c' => { c with groups := c'.groups }
  | .error _ => c

/-- Task types dispatched by the supervisor worker (pkg/task). -/
inductive TaskType : Type
  | run
  | build
  | unknown
deriving DecidableEq, Repr

/-- Which intermediate steps of one `Engine.worker` iteration
(pkg/engine/supervisor.go:61-117) fail, and what the dispatched planner
returns.  `appendStateFails` models an error from
`store.AppendTaskState(id, Processing)` (logged, not acted upon);
`openLogFails` an error from `os.OpenFile` for the per-task log sink;
`dispatchErr` the error returned by `doRun`/`doBuild` (for an unknown task
type neither is called and the local `err` is still nil). -/
structure WorkerStepOutcomes where
  appendStateFails : Bool
  openLogFails : Bool
  taskType : TaskType
  dispatchErr : Option String
deriving DecidableEq, Repr

/-- Store operations the worker can perform on the popped task. -/
inductive StoreOp : Type
  | appendProcessing
  | markCompleted (err : Option String)
deriving DecidableEq, Repr

/-- Error value the worker hands to `MarkCompleted`: the dispatch error for
run/build tasks, and the (nil) leftover `err` for unknown task types. -/
def completedError (w : WorkerStepOutcomes) : Option String :=
  match w.taskType with
  | .unknown => none
  | _ => w.dispatchErr

/-- Store operations performed, in order, by one iteration of
`Engine.worker` (pkg/engine/supervisor.go:61-117) on the popped task:
`AppendTaskState(Processing)` always runs (its own failure is only
logged); if opening the per-task log sink fails the worker returns
immediately; otherwise it dispatches by task type and always reaches
`MarkCompleted` with the dispatch error (nil for unknown types). -/
def workerStoreOps (w : WorkerStepOutcomes) : List StoreOp :=
  [StoreOp.appendProcessing] ++
    (if w.openLogFails then [] else [StoreOp.markCompleted (completedError w)])

/-- Build output (pkg/api): artifact path plus the builder id stamped by
`doBuild` before the result is fanned back to the groups. -/
structure BuildOutput where
  artifactPath : String
  builderID : String
deriving DecidableEq, Repr

/-- Distinct build keys of a group list, in first-occurrence order (the set
of keys of the Go map `uniq` built by `doBuild`,
pkg/engine/supervisor.go:216-220; Go iterates that map in unspecified
order, and nothing proved below depends on the order chosen here). -/
def uniqBuildKeys (groups : List Group) : List String :=
  dedupFirst (groups.map (fun g => g.build.buildKey))

/-- Indices of the groups whose build key is `k`, in group order (the value
`uniq[k]` of `doBuild`'s partition map). -/
def classIndices (groups : List Group) (k : String) : List Nat :=
  (List.range groups.length).filter (fun i => (groups.getD i emptyGroup).build.buildKey == k)

/-- First index of the equivalence class of build key `k` — the
representative group `doBuild` hands to the builder
(pkg/engine/supervisor.go:260: "All groups are identical for the sake of
building, so pick the first one"). -/
def classRep (groups : List Group) (k : String) : Nat :=
  (classIndices groups k).headD 0

/-- Stamped build output of the equivalence class of key `k` (none when
the class's build fails). -/
def classOutput (bmId : String) (bm : Group → Except String BuildOutput)
    (groups : List Group) (k : String) : Option BuildOutput :=
  match bm (groups.getD (classRep groups k) emptyGroup) with
  | .ok res => some { res with builderID := bmId }
  | .error _ => none

/-- Write one equivalence class's build result into every one of its group
positions in the result slice (pkg/engine/supervisor.go:299-301). -/
def setAll (ress : List (Option BuildOutput)) (idxs : List Nat) (res : BuildOutput) :
    List (Option BuildOutput) :=
  idxs.foldl (fun acc i => acc.set i (some res)) ress

/-- Build fibers of `Engine.doBuild` (pkg/engine/supervisor.go:250-313),
one per unique build key: each picks the first group of its equivalence
class as representative, invokes the builder on it, stamps the builder id
and writes the result into every position of its class.  Go runs the
fibers concurrently under an errgroup (unspecified scheduling, first error
wins and cancels the siblings); the model serialises them in
first-occurrence key order, records which representatives were invoked,
and stops at the first failing class in that order. -/
def runBuildFibers (bmId : String) (bm : Group → Except String BuildOutput)
    (groups : List Group) :
    List String → List (Option BuildOutput) → List Nat × Except String (List (Option BuildOutput))
  | [], ress => ([], .ok ress)
  | k :: keys, ress =>
    match bm (groups.getD (classRep groups k) emptyGroup) with
    | .error e => ([classRep groups k], .error e)
    | .ok res =>
      let rest := runBuildFibers bmId bm groups keys
        (setAll ress (classIndices groups k) { res with builderID := bmId })
      (classRep groups k :: rest.1, rest.2)

/-- Fan-out core of `Engine.doBuild`: partition the groups by build key,
run one build per unique key and assemble one result per original group.
Returns the list of representative indices the builder was invoked on
together with the outcome. -/
def doBuildFan (bmId : String) (bm : Group → Except String BuildOutput) (groups : List Group) :
    List Nat × Except String (List (Option BuildOutput)) :=
  runBuildFibers bmId bm groups (uniqBuildKeys groups) (List.replicate groups.length none)

/-- Sample builder: always succeeds, deriving the artifact path from the
representative group's id. -/
def sampleBuilder : Group → Except String BuildOutput :=
  fun g => .ok ⟨"art-" ++ g.id, ""⟩

/-- Builder that fails on every group. -/
def failingBuilder : Group → Except String BuildOutput :=
  fun _ => .error "boom"

/-- Three groups for the fan-out witness: the first two share a build
(identical Build blocks), the third differs by a selector. -/
def fanGroups : List Group :=
  [⟨"g1", ⟨"", ""⟩, ⟨1, 0⟩, [], ⟨[], []⟩, ⟨"", [], []⟩, 0⟩,
   ⟨"g2", ⟨"", ""⟩, ⟨1, 0⟩, [], ⟨[], []⟩, ⟨"", [], []⟩, 0⟩,
   ⟨"g3", ⟨"", ""⟩, ⟨1, 0⟩, [], ⟨["sel"], []⟩, ⟨"", [], []⟩, 0⟩]

/-- Control-flow outcome of `Engine.doRun` (pkg/engine/supervisor.go:316-396)
up to and including the runner lookup, for inputs without prebuilt groups. -/
inductive RunStep : Type
  | errored
  | nilRunnerPanic
  | proceeds
deriving DecidableEq, Repr

/-- Runner-lookup behaviour of `Engine.doRun` (pkg/engine/supervisor.go:
342-358 and 393): after `PrepareForRun` and `ValidateForRun` succeed, the
runner is read from the engine's registry without an `ok` check
(`run := e.runners[runner]`).  For an unregistered id the nil interface
skips the healthcheck type assertion and the subsequent
`run.ConfigType()` call dereferences nil — modelled as `nilRunnerPanic`. -/
def Engine.doRunControl (runners : List String) (c : Composition)
    (manifest : TestPlanManifest) : RunStep :=
  match c.prepareForRun manifest with
  | .error _ => .errored
  | .ok c' =>
    match c'.validateForRun with
    | .error _ => .errored
    | .ok c'' =>
      if c''.global.runner ∈ runners then .proceeds else .nilRunnerPanic

/-- Control-flow outcome of `Engine.doBuild` up to the builder lookup. -/
inductive BuildStep : Type
  | errored
  | unrecognizedBuilder
  | proceeds
deriving DecidableEq, Repr

/-- Builder-lookup behaviour of `Engine.doBuild` (pkg/engine/supervisor.go:
142-162): after `PrepareForBuild` and `ValidateForBuild` succeed, the
builder is looked up with an `ok` check and an unregistered id returns the
`unrecognized builder` error. -/
def Engine.doBuildControl (builders : List String) (c : Composition)
    (manifest : TestPlanManifest) : BuildStep :=
  match c.prepareForBuild manifest with
  | .error _ => .errored
  | .ok c' =>
    match c'.validateForBuild with
    | .error _ => .errored
    | .ok _ =>
      if c'.global.builder ∈ builders then .proceeds else .unrecognizedBuilder

/-- Manifest advertising builder `b:x` and runner `b:y` only, with one test
case; used to exhibit the membership-check slip of `PrepareForBuild` /
`PrepareForRun`. -/
def manifestBuilderSlip : TestPlanManifest :=
  ⟨"foo_plan", [("b:x", [])], [("b:y", [])], [⟨"foo_case", ⟨1, 100⟩, []⟩]⟩

/-- Composition requesting builder `"a"` and runner `"a"`, neither of which
`manifestBuilderSlip` advertises; `"a"` sorts before every advertised id. -/
def compBuilderSlip : Composition :=
  ⟨⟨"", ""⟩, ⟨"plan", "foo_case", 3, "a", [], none, "a", [], none, false⟩,
    [⟨"g1", ⟨"", ""⟩, ⟨1, 0⟩, [], ⟨[], []⟩, ⟨"", [], []⟩, 0⟩]⟩

/-- Worker iteration in which opening the per-task log sink fails. -/
def workerOpenFailOutcome : WorkerStepOutcomes :=
  ⟨false, true, .run, some "runner exploded"⟩

/-- Composition with a global build-defaults block (one selector) and one
group that declares no selectors; its global build config is empty, so the
only receiver aliasing in play is the shared `*Group` objects. -/
def compShared : Composition :=
  ⟨⟨"", ""⟩, ⟨"p", "c", 1, "docker:go", [], some ⟨["s1"], []⟩, "r", [], none, false⟩,
    [⟨"g1", ⟨"", ""⟩, ⟨1, 0⟩, [], ⟨[], []⟩, ⟨"", [], []⟩, 0⟩]⟩

/-- Manifest advertising exactly the builder `compShared` requests. -/
def manifestShared : TestPlanManifest :=
  ⟨"p", [("docker:go", [])], [("r", [])], []⟩

/-- Two-group composition used for the `PickGroups` statements. -/
def compPick : Composition :=
  ⟨⟨"", ""⟩, ⟨"p", "c", 2, "b", [], none, "r", [], none, false⟩,
    [⟨"g1", ⟨"", ""⟩, ⟨1, 0⟩, [], ⟨[], []⟩, ⟨"", [], []⟩, 0⟩,
     ⟨"g2", ⟨"", ""⟩, ⟨1, 0⟩, [], ⟨[], []⟩, ⟨"", [], []⟩, 0⟩]⟩

/-- Well-formed two-group composition (counts 1 and 1, total 2) that
passes `PrepareForRun`/`PrepareForBuild` against `manifestRunnable` and
both validators. -/
def compRunnable : Composition :=
  ⟨⟨"", ""⟩, ⟨"p0", "foo_case", 2, "docker:go", [], none, "local:docker", [], none, false⟩,
    [⟨"g1", ⟨"", ""⟩, ⟨1, 0⟩, [], ⟨[], []⟩, ⟨"", [], []⟩, 0⟩,
     ⟨"g2", ⟨"", ""⟩, ⟨1, 0⟩, [], ⟨[], []⟩, ⟨"", [], []⟩, 0⟩]⟩

/-- Manifest advertising exactly `compRunnable`'s builder and runner, with
its test case and wide instance bounds. -/
def manifestRunnable : TestPlanManifest :=
  ⟨"foo_plan", [("docker:go", [])], [("local:docker", [])], [⟨"foo_case", ⟨1, 100⟩, []⟩]⟩

/-- Value `PrepareForRun`/`PrepareForBuild` return for `compRunnable`
against `manifestRunnable`: only the plan name changes. -/
def compRunnablePrepared : Composition :=
  ⟨⟨"", ""⟩, ⟨"foo_plan", "foo_case", 2, "docker:go", [], none, "local:docker", [], none, false⟩,
    [⟨"g1", ⟨"", ""⟩, ⟨1, 0⟩, [], ⟨[], []⟩, ⟨"", [], []⟩, 0⟩,
     ⟨"g2", ⟨"", ""⟩, ⟨1, 0⟩, [], ⟨[], []⟩, ⟨"", [], []⟩, 0⟩]⟩

/-- Value `ValidateForRun` returns for `compRunnablePrepared`: each group's
calculated instance count is its `count` field. -/
def compRunnableValidated : Composition :=
  ⟨⟨"", ""⟩, ⟨"foo_plan", "foo_case", 2, "docker:go", [], none, "local:docker", [], none, false⟩,
    [⟨"g1", ⟨"", ""⟩, ⟨1, 0⟩, [], ⟨[], []⟩, ⟨"", [], []⟩, 1⟩,
     ⟨"g2", ⟨"", ""⟩, ⟨1, 0⟩, [], ⟨[], []⟩, ⟨"", [], []⟩, 1⟩]⟩

/-- Value `ValidateForRun` returns for `compRunnable` itself (plan name
still "p0"): each group's calculated instance count is its `count`. -/
def compRunnableValidatedRaw : Composition :=
  ⟨⟨"", ""⟩, ⟨"p0", "foo_case", 2, "docker:go", [], none, "local:docker", [], none, false⟩,
    [⟨"g1", ⟨"", ""⟩, ⟨1, 0⟩, [], ⟨[], []⟩, ⟨"", [], []⟩, 1⟩,
     ⟨"g2", ⟨"", ""⟩, ⟨1, 0⟩, [], ⟨[], []⟩, ⟨"", [], []⟩, 1⟩]⟩

/-- Composition whose group counts (1 and 2) do not sum to its
`total_instances` (2); used for the InstanceCountMismatch witness. -/
def compMismatched : Composition :=
  ⟨⟨"", ""⟩, ⟨"p0", "foo_case", 2, "docker:go", [], none, "local:docker", [], none, false⟩,
    [⟨"g1", ⟨"", ""⟩, ⟨1, 0⟩, [], ⟨[], []⟩, ⟨"", [], []⟩, 0⟩,
     ⟨"g2", ⟨"", ""⟩, ⟨2, 0⟩, [], ⟨[], []⟩, ⟨"", [], []⟩, 0⟩]⟩

/-- Composition with a percentage-based group: total 4, one group with
count 2 and one with percentage 1/2 (so 2 computed instances each). -/
def compPercentage : Composition :=
  ⟨⟨"", ""⟩, ⟨"p0", "foo_case", 4, "docker:go", [], none, "local:docker", [], none, false⟩,
    [⟨"g1", ⟨"", ""⟩, ⟨2, 0⟩, [], ⟨[], []⟩, ⟨"", [], []⟩, 0⟩,
     ⟨"g2", ⟨"", ""⟩, ⟨0, mkRat 1 2⟩, [], ⟨[], []⟩, ⟨"", [], []⟩, 0⟩]⟩

/-- Global build config after `PrepareForBuild`'s manifest merge (step 3):
the manifest's config map for the requested builder fills the keys the
composition did not set. -/
def effectiveGlobalBuildConfig (c : Composition) (m : TestPlanManifest) : GoMap ConfigVal :=
  match GoMap.lookup m.builders c.global.builder with
  | some bcfg => GoMap.trickle c.global.buildConfig bcfg
  | none => c.global.buildConfig

/-- Test-param default the composition's global Run block provides for a
key (none when there is no global Run block). -/
def globalTestParam (c : Composition) (k : String) : Option String :=
  match c.global.run with
  | some dflt => GoMap.lookup dflt.testParams k
  | none => none

/-- Profile default the composition's global Run block provides for a key. -/
def globalProfile (c : Composition) (k : String) : Option String :=
  match c.global.run with
  | some dflt => GoMap.lookup dflt.profiles k
  | none => none

/-- First dependency with the given module, its version (the value a
per-module lookup of a dependency list observes). -/
def depVersion (d : List Dependency) (mod : String) : Option String :=
  (d.find? (fun x => x.module == mod)).map (fun x => x.version)

/-- Per-group effect of `PrepareForBuild`'s step 4 (global build defaults,
when a global Build block exists). -/
def buildGroupStage1 (c : Composition) (g : Group) : Group :=
  match c.global.build with
  | some dflt => Group.applyBuildDefaults dflt g
  | none => g

/-- Per-group transformation `PrepareForBuild` applies (steps 4 and 5
combined), as a function of the original composition and manifest. -/
def buildGroupTransform (c : Composition) (m : TestPlanManifest) (g : Group) : Group :=
  if (effectiveGlobalBuildConfig c m).isEmpty then buildGroupStage1 c g
  else Group.applyBuildConfig (effectiveGlobalBuildConfig c m) (buildGroupStage1 c g)

/-- Per-group transformation `PrepareForRun` applies (global run-defaults
trickle followed by manifest parameter defaults). -/
def runGroupTransform (c : Composition) (tcase : TestCase) (g : Group) : Group :=
  Group.applyParamDefaults (renderedDefaults tcase)
    (match c.global.run with
     | some dflt => Group.applyRunDefaults dflt g
     | none => g)

/-- Single group of `c7comp`: overrides dependency `depA`, sets `param1`,
one local build-config key, no selectors. -/
def c7group : Group :=
  ⟨"g0", ⟨"", ""⟩, ⟨3, 0⟩, [("bkey2", .str "L")],
    ⟨[], [⟨"depA", "", "1.over"⟩]⟩,
    ⟨"", [("param1", "X")], []⟩, 0⟩

/-- Test case of `manifest7`: declares defaults for `param3` (new) and
`param1` (already set by both the group and the composition globals). -/
def c7tcase : TestCase :=
  ⟨"foo_case", ⟨1, 100⟩, [("param3", ⟨"string", .str "D"⟩), ("param1", ⟨"string", .str "MD"⟩)]⟩

/-- Composition with global build defaults (selectors and two
dependencies), a global build-config key, and global run test params and
profiles; one group (`c7group`). -/
def c7comp : Composition :=
  ⟨⟨"", ""⟩,
   ⟨"p", "foo_case", 3, "docker:go", [("bkey", .str "G")],
    some ⟨["gsel"], [⟨"depA", "", "1.default"⟩, ⟨"depB", "", "2.default"⟩]⟩,
    "local:docker", [],
    some ⟨"", [("param1", "A"), ("param2", "B")], [("cpu", "")]⟩, false⟩,
   [c7group]⟩

/-- Manifest for `c7comp`: advertises its builder (with one builder-config
default key) and runner, and carries `c7tcase`. -/
def manifest7 : TestPlanManifest :=
  ⟨"foo_plan", [("docker:go", [("bkey3", .str "M")])], [("local:docker", [])], [c7tcase]⟩

/-- Character-list form of one dependency chunk `module:version|` of
`BuildKey`. -/
def chunkL (m v : List Char) : List Char := m ++ ':' :: (v ++ ['|'])

/-- Character-list form of the dependency section of `BuildKey`. -/
def chunksL : List (List Char × List Char) → List Char
  | [] => []
  | p :: rest => chunkL p.1 p.2 ++ chunksL rest

/-- The two fields of a dependency that `BuildKey` renders, as character
lists. -/
def pairData (d : Dependency) : List Char × List Char := (d.module.data, d.version.data)

/-- A dependency whose rendered fields avoid the `BuildKey` delimiters:
no ':' in the module, no '|' in the version. -/
def delimFreeDep (dep : Dependency) : Prop :=
  ':' ∉ dep.module.data ∧ '|' ∉ dep.version.data

instance (dep : Dependency) : Decidable (delimFreeDep dep) :=
  inferInstanceAs (Decidable (':' ∉ dep.module.data ∧ '|' ∉ dep.version.data))

/-- Fields of a dependency that `BuildKey` can observe: module and version. -/
def depFieldsEq (a b : Dependency) : Prop := a.module = b.module ∧ a.version = b.version

/-- Prefix of `BuildKey` up to and including `dependencies=`. -/
def keyPrefix (sel : List String) : List Char :=
  ("selectors=" ++ String.intercalate "," (sortStrings sel) ++ ";" ++ "dependencies=").data

/-- Build blocks for the C8 counterexample: two dependencies on the same
module with different versions, in the two orders. -/
def bPerm1 : Build := ⟨[], [⟨"m", "", "1"⟩, ⟨"m", "", "2"⟩]⟩

/-- Reversal of `bPerm1`'s dependency list. -/
def bPerm2 : Build := ⟨[], [⟨"m", "", "2"⟩, ⟨"m", "", "1"⟩]⟩

/-- Module-collision counterexample, first build: modules `a:v|b` and
`a:v|b:v|a`, each with version `v`. -/
def bMod1 : Build := ⟨[], [⟨"a:v|b", "", "v"⟩, ⟨"a:v|b:v|a", "", "v"⟩]⟩

/-- Same as `bMod1` with the first module changed to `b:v|a`. -/
def bMod2 : Build := ⟨[], [⟨"b:v|a", "", "v"⟩, ⟨"a:v|b:v|a", "", "v"⟩]⟩

namespace GoMap

theorem lookup_append {V : Type} (a b : GoMap V) (k : String) :
    lookup (a ++ b) k = (lookup a k).orElse (fun _ => lookup b k) := by
  induction a with
  | nil => rfl
  | cons p rest ih =>
    cases p with
    | mk k' v =>
      by_cases h : k' = k
      · simp [lookup, h, Option.orElse]
      · simpa [lookup, h, List.cons_append] using ih

theorem lookup_filter_of_none {V : Type} (dst src : GoMap V) (k : String)
    (h : lookup dst k = none) :
    lookup (src.filter (fun p => (lookup dst p.1).isNone)) k = lookup src k := by
  induction src with
  | nil => rfl
  | cons p rest ih =>
    cases p with
    | mk k' v =>
      by_cases hk : k' = k
      · subst hk
        simp [List.filter, h, lookup]
      · by_cases hkeep : (lookup dst k').isNone
        · simp only [List.filter, hkeep, if_true, lookup, hk, if_false]
          simpa [lookup, hk] using ih
        · simp only [List.filter, hkeep]
          simpa [lookup, hk] using ih

/-- Per-key semantics of the insert-if-absent merge: the destination wins,
the source fills gaps. -/
theorem lookup_trickle {V : Type} (dst src : GoMap V) (k : String) :
    lookup (trickle dst src) k = (lookup dst k).orElse (fun _ => lookup src k) := by
  unfold trickle
  rw [lookup_append]
  cases h : lookup dst k with
  | some v => simp [Option.orElse]
  | none => simp [Option.orElse, lookup_filter_of_none dst src k h]

end GoMap

/-- C6: `ValidateInstances` accepts exactly when one of the two fields is
zero while their sum is positive, i.e. when exactly one of `count` and
`percentage` is set to a positive value (`count`, a Go `uint`, is positive
whenever nonzero). -/
theorem claim6_instances_mutually_exclusive (i : Instances) :
    validateInstancesOk i = true ↔
      (0 < i.count ∧ i.percentage = 0) ∨ (i.count = 0 ∧ 0 < i.percentage) := by
  unfold validateInstancesOk
  rcases i with ⟨c, p⟩
  simp only [Bool.and_eq_true, Bool.or_eq_true, beq_iff_eq, decide_eq_true_eq]
  constructor
  · rintro ⟨hzero, hsum⟩
    rcases hzero with hc | hp
    · subst hc
      simp only [Nat.cast_zero, zero_add] at hsum
      exact Or.inr ⟨rfl, hsum⟩
    · subst hp
      simp only [add_zero] at hsum
      left
      constructor
      · exact_mod_cast Nat.pos_of_ne_zero (by
          intro h
          subst h
          simp at hsum)
      · rfl
  · rintro (⟨hc, hp⟩ | ⟨hc, hp⟩)
    · subst hp
      refine ⟨Or.inr rfl, ?_⟩
      simpa using (by exact_mod_cast hc : (0 : Rat) < (c : Rat))
    · subst hc
      exact ⟨Or.inl rfl, by simpa using hp⟩

/-- Concrete check of the four enumerated cases of C6: both zero fails,
both nonzero fails, count alone passes, percentage alone in (0, 1] passes. -/
theorem claim6_enumerated_cases :
    validateInstancesOk ⟨0, 0⟩ = false ∧
    validateInstancesOk ⟨2, 1/2⟩ = false ∧
    validateInstancesOk ⟨3, 0⟩ = true ∧
    validateInstancesOk ⟨0, 1/2⟩ = true := by
  refine ⟨?_, ?_, ?_, ?_⟩ <;> norm_num [validateInstancesOk]

/-- C1 (code bug): `PrepareForBuild` tests builder support with
`sort.SearchStrings(builders, b) == len(builders)` and never compares the
element at the returned index with `b`, so a requested builder that is not
advertised but sorts before the last advertised id is accepted:  with
advertised builders `{"b:x"}` and requested builder `"a"`, both
`PrepareForBuild` and (for runner `"a"` against advertised `{"b:y"}`)
`PrepareForRun` succeed instead of failing with
UnsupportedBuilder/UnsupportedRunner. -/
theorem claim1_searchstrings_slip :
    compBuilderSlip.global.builder = "a" ∧
    "a" ∉ manifestBuilderSlip.builders.map Prod.fst ∧
    (compBuilderSlip.prepareForBuild manifestBuilderSlip).isOk = true ∧
    compBuilderSlip.global.runner = "a" ∧
    "a" ∉ manifestBuilderSlip.runners.map Prod.fst ∧
    (compBuilderSlip.prepareForRun manifestBuilderSlip).isOk = true := by
  refine ⟨rfl, by decide, by decide, rfl, by decide, by decide⟩

/-- C2 counterexample: when opening the per-task log sink fails, the worker
returns after `AppendTaskState(Processing)` and never invokes
`MarkCompleted`, so the dispatched task stays in a non-terminal state. -/
theorem claim2_counterexample :
    workerStoreOps workerOpenFailOutcome = [StoreOp.appendProcessing] := by
  decide

/-- C2 (amended): in every worker iteration in which the per-task log sink
opens successfully, the worker performs exactly
`AppendTaskState(Processing)` followed by `MarkCompleted` — regardless of
an `AppendTaskState` error, of the task type (including unknown types) and
of whether the dispatched build/run returned an error (that error is what
`MarkCompleted` records, nil for unknown types). -/
theorem claim2_markcompleted_unless_logsink (w : WorkerStepOutcomes)
    (h : w.openLogFails = false) :
    workerStoreOps w = [StoreOp.appendProcessing, StoreOp.markCompleted (completedError w)] ∧
      StoreOp.markCompleted (completedError w) ∈ workerStoreOps w := by
  unfold workerStoreOps
  rw [h]
  exact ⟨rfl, by simp⟩

/-- Witness for `claim2_markcompleted_unless_logsink` at a concrete worker
iteration (build task whose dispatch errored, log sink fine). -/
theorem claim2_witness :
    (⟨true, false, .build, some "x"⟩ : WorkerStepOutcomes).openLogFails = false ∧
      workerStoreOps ⟨true, false, .build, some "x"⟩ =
        [StoreOp.appendProcessing, StoreOp.markCompleted (some "x")] :=
  ⟨rfl, (claim2_markcompleted_unless_logsink ⟨true, false, .build, some "x"⟩ rfl).1⟩

/-- C3 (code bug): although `PrepareForBuild`'s doc comment says "This
method doesn't modify the composition", the caller's groups are shared
with the value receiver through the `[]*Group` slice, and the trickle-down
of the global selectors mutates them: after a successful call on
`compShared` the caller's single group has selectors `["s1"]` where it had
`[]`. -/
theorem claim3_receiver_mutated :
    (compShared.prepareForBuild manifestShared).isOk = true ∧
    compShared.groups.map (fun g => g.build.selectors) = [[]] ∧
    (compShared.prepareForBuildReceiverAfter manifestShared).groups.map
        (fun g => g.build.selectors) = [["s1"]] ∧
    (compShared.prepareForBuildReceiverAfter manifestShared).groups ≠ compShared.groups := by
  refine ⟨by decide, by decide, by decide, by decide⟩

/-- C4 counterexample: the index `-1` is out of range for `compPick`'s
group sequence, yet `PickGroups` does not fail with InvalidGroupIndex — it
reaches the `c.Groups[i]` access, which panics. -/
theorem claim4_counterexample :
    compPick.pickGroups [(-1 : Int)] = PickResult.outOfRangePanic ∧
      ∀ n : Int, compPick.pickGroups [(-1 : Int)] ≠ PickResult.invalidGroupIndex n := by
  refine ⟨by decide, fun n => ?_⟩
  have h : compPick.pickGroups [(-1 : Int)] = PickResult.outOfRangePanic := by decide
  rw [h]
  simp

/-- C4 (amended): `PickGroups` returns the groups at the given indices in
index-list order and rejects any index `≥ len(Groups)` with
InvalidGroupIndex (reporting such an index, before accessing any
group); a negative index, however, is not rejected: if every index is below
the length but some index is negative, the group access panics. -/
theorem claim4_pickgroups_amended (c : Composition) (indices : List Int) :
    ((∀ i ∈ indices, 0 ≤ i ∧ i < (c.groups.length : Int)) →
      c.pickGroups indices =
        .ok { c with groups := indices.map (fun i => c.groups.getD i.toNat emptyGroup) }) ∧
    ((∃ i ∈ indices, (c.groups.length : Int) ≤ i) →
      ∃ j ∈ indices, (c.groups.length : Int) ≤ j ∧
        c.pickGroups indices = .invalidGroupIndex j) ∧
    ((∀ i ∈ indices, i < (c.groups.length : Int)) → (∃ i ∈ indices, i < 0) →
      c.pickGroups indices = .outOfRangePanic) := by
  refine ⟨?_, ?_, ?_⟩
  · intro h
    unfold Composition.pickGroups
    have hfind : indices.find? (fun i => decide ((c.groups.length : Int) ≤ i)) = none := by
      rw [List.find?_eq_none]
      intro i hi
      simpa using (h i hi).2.not_le
    rw [hfind]
    have hall : indices.all (fun i => decide (0 ≤ i)) = true := by
      rw [List.all_eq_true]
      intro i hi
      simpa using (h i hi).1
    rw [if_pos hall]
  · intro h
    unfold Composition.pickGroups
    rcases h with ⟨i, hi, hle⟩
    have hsome : (indices.find? (fun i => decide ((c.groups.length : Int) ≤ i))).isSome := by
      rw [List.find?_isSome]
      exact ⟨i, hi, by simpa using hle⟩
    rcases Option.isSome_iff_exists.mp hsome with ⟨j, hj⟩
    refine ⟨j, List.mem_of_find?_eq_some hj, ?_, ?_⟩
    · simpa using List.find?_some hj
    · rw [hj]
  · intro hlt hneg
    unfold Composition.pickGroups
    have hfind : indices.find? (fun i => decide ((c.groups.length : Int) ≤ i)) = none := by
      rw [List.find?_eq_none]
      intro i hi
      simpa using (hlt i hi).not_le
    rw [hfind]
    have hall : indices.all (fun i => decide (0 ≤ i)) = false := by
      rcases hneg with ⟨i, hi, hneg⟩
      rw [List.all_eq_false]
      exact ⟨i, hi, by simpa using hneg.not_le⟩
    rw [if_neg (by simp [hall])]

/-- Witness for `claim4_pickgroups_amended`: picking groups `[1, 0]` from
the two-group `compPick` returns the groups in that order, and index `5`
is rejected with InvalidGroupIndex. -/
theorem claim4_witness :
    (∀ i ∈ ([1, 0] : List Int), 0 ≤ i ∧ i < (compPick.groups.length : Int)) ∧
    compPick.pickGroups [1, 0] =
      .ok { compPick with
              groups := ([1, 0] : List Int).map (fun i => compPick.groups.getD i.toNat emptyGroup) } ∧
    (∃ j ∈ ([5] : List Int), (compPick.groups.length : Int) ≤ j ∧
      compPick.pickGroups [5] = .invalidGroupIndex j) :=
  ⟨by decide, (claim4_pickgroups_amended compPick [1, 0]).1 (by decide),
    (claim4_pickgroups_amended compPick [5]).2.1 (by decide)⟩

theorem mem_dedupFirstAux (seen l : List String) (x : String) :
    x ∈ dedupFirstAux seen l ↔ x ∈ l ∧ x ∉ seen := by
  induction l generalizing seen with
  | nil => simp [dedupFirstAux]
  | cons y ys ih =>
    unfold dedupFirstAux
    by_cases hy : y ∈ seen
    · rw [if_pos hy, ih]
      constructor
      · rintro ⟨h1, h2⟩
        exact ⟨List.mem_cons_of_mem y h1, h2⟩
      · rintro ⟨h1, h2⟩
        rcases List.mem_cons.mp h1 with h1 | h1
        · exact absurd (h1 ▸ hy) h2
        · exact ⟨h1, h2⟩
    · rw [if_neg hy]
      by_cases hxy : x = y
      · subst hxy
        simp [hy]
      · simp only [List.mem_cons, hxy, false_or]
        rw [ih]
        constructor
        · rintro ⟨h1, h2⟩
          exact ⟨h1, fun hs => h2 (List.mem_cons_of_mem y hs)⟩
        · rintro ⟨h1, h2⟩
          exact ⟨h1, fun hs => by
            rcases List.mem_cons.mp hs with hs | hs
            · exact hxy hs
            · exact h2 hs⟩

theorem mem_dedupFirst (l : List String) (x : String) : x ∈ dedupFirst l ↔ x ∈ l := by
  unfold dedupFirst
  rw [mem_dedupFirstAux]
  simp

theorem depLookupLast_isSome_iff (defs : List Dependency) (mod : String) :
    (depLookupLast defs mod).isSome = true ↔ mod ∈ defs.map (fun x => x.module) := by
  unfold depLookupLast
  constructor
  · intro h
    rcases Option.isSome_iff_exists.mp h with ⟨v, hv⟩
    rcases Option.map_eq_some'.mp hv with ⟨x, hx, _⟩
    exact List.mem_map.mpr ⟨x, List.mem_reverse.mp (List.mem_of_find?_eq_some hx),
      by simpa using List.find?_some hx⟩
  · intro h
    rcases List.mem_map.mp h with ⟨x, hx, hmod⟩
    have hs : (List.find? (fun y => y.module == mod) defs.reverse).isSome = true :=
      List.find?_isSome.mpr ⟨x, List.mem_reverse.mpr hx, by simpa using hmod⟩
    rcases Option.isSome_iff_exists.mp hs with ⟨y, hy⟩
    rw [hy]
    rfl

theorem depLookupLast_eq_depVersion (defs : List Dependency) (mod : String)
    (hnd : (defs.map (fun x => x.module)).Nodup) :
    depLookupLast defs mod = depVersion defs mod := by
  induction defs with
  | nil => rfl
  | cons x rest ih =>
    simp only [List.map_cons, List.nodup_cons] at hnd
    unfold depLookupLast depVersion
    rw [List.reverse_cons, List.find?_append]
    by_cases hx : x.module = mod
    · have hrev : List.find? (fun y => y.module == mod) rest.reverse = none := by
        rw [List.find?_eq_none]
        intro y hy
        simp only [beq_iff_eq]
        intro hc
        exact hnd.1 (hx ▸ hc ▸ List.mem_map.mpr ⟨y, List.mem_reverse.mp hy, rfl⟩)
      have h1 : List.find? (fun y => y.module == mod) [x] = some x :=
        List.find?_cons_of_pos _ (by simpa using hx)
      have h2 : List.find? (fun y => y.module == mod) (x :: rest) = some x :=
        List.find?_cons_of_pos _ (by simpa using hx)
      rw [hrev, h1, h2]
      rfl
    · have h1 : List.find? (fun y => y.module == mod) [x] = none := by
        rw [List.find?_cons_of_neg _ (by simpa using hx)]
        rfl
      have h2 : List.find? (fun y => y.module == mod) (x :: rest) =
          List.find? (fun y => y.module == mod) rest :=
        List.find?_cons_of_neg _ (by simpa using hx)
      rw [h1, h2, Option.or_none]
      have hrec := ih hnd.2
      unfold depLookupLast depVersion at hrec
      exact hrec

theorem depVersion_append (l₁ l₂ : List Dependency) (mod : String) :
    depVersion (l₁ ++ l₂) mod = (depVersion l₁ mod).or (depVersion l₂ mod) := by
  unfold depVersion
  rw [List.find?_append]
  cases List.find? (fun x => x.module == mod) l₁ <;> simp [Option.or]

theorem depVersion_filterMap (defs d : List Dependency) (mods : List String) (mod : String)
    (hd : ∀ x ∈ d, x.module ≠ mod)
    (hmods : ∀ m' ∈ mods, m' ∈ defs.map (fun x => x.module)) :
    depVersion (mods.filterMap (fun m' =>
        if d.any (fun x => x.module == m') then none
        else (depLookupLast defs m').map (fun v => ⟨m', "", v⟩))) mod
      = if mod ∈ mods then depLookupLast defs mod else none := by
  induction mods with
  | nil => simp [depVersion]
  | cons m' rest ih =>
    have hmodsrest : ∀ x ∈ rest, x ∈ defs.map (fun x => x.module) := fun x hx =>
      hmods x (List.mem_cons_of_mem m' hx)
    by_cases hm : m' = mod
    · subst hm
      have hany : d.any (fun x => x.module == m') = false := by
        rw [List.any_eq_false]
        intro x hx
        simpa using hd x hx
      have hsome : (depLookupLast defs m').isSome = true :=
        (depLookupLast_isSome_iff defs m').mpr (hmods m' (List.mem_cons_self m' rest))
      rcases Option.isSome_iff_exists.mp hsome with ⟨v, hv⟩
      have hfn : (if d.any (fun x => x.module == m') then none
          else (depLookupLast defs m').map (fun v => (⟨m', "", v⟩ : Dependency)))
          = some ⟨m', "", v⟩ := by
        rw [if_neg (by simp [hany]), hv]
        rfl
      simp only [List.filterMap_cons, hfn]
      unfold depVersion
      rw [List.find?_cons_of_pos _ (by simp), if_pos (List.mem_cons_self m' rest), hv]
      rfl
    · have hiff : (mod ∈ m' :: rest) ↔ (mod ∈ rest) := by
        rw [List.mem_cons]
        constructor
        · rintro (h | h)
          · exact absurd h.symm hm
          · exact h
        · exact Or.inr
      cases hfn : (if d.any (fun x => x.module == m') then none
          else (depLookupLast defs m').map (fun v => (⟨m', "", v⟩ : Dependency))) with
      | none =>
        simp only [List.filterMap_cons, hfn]
        rw [ih hmodsrest]
        exact if_congr hiff.symm rfl rfl
      | some dep =>
        have hdep : dep.module = m' := by
          by_cases hany : d.any (fun x => x.module == m')
          · rw [if_pos hany] at hfn
            cases hfn
          · rw [if_neg hany] at hfn
            cases hl : depLookupLast defs m' with
            | none => rw [hl] at hfn; cases hfn
            | some v =>
              rw [hl] at hfn
              simp only [Option.map_some'] at hfn
              cases hfn
              rfl
        simp only [List.filterMap_cons, hfn]
        unfold depVersion
        rw [List.find?_cons_of_neg _ (by simp [hdep, hm])]
        have hres := ih hmodsrest
        unfold depVersion at hres
        rw [hres]
        exact if_congr hiff.symm rfl rfl

theorem applyDefaults_version_present (d defs : List Dependency) (mod : String)
    (h : (depVersion d mod).isSome = true) :
    depVersion (Dependencies.applyDefaults d defs) mod = depVersion d mod := by
  unfold Dependencies.applyDefaults
  by_cases hd : d.isEmpty
  · rw [List.isEmpty_iff.mp hd] at h
    simp [depVersion] at h
  · rw [if_neg hd, depVersion_append]
    rcases Option.isSome_iff_exists.mp h with ⟨v, hv⟩
    rw [hv]
    rfl

theorem applyDefaults_version_absent (d defs : List Dependency) (mod : String)
    (h : depVersion d mod = none)
    (hnd : (defs.map (fun x => x.module)).Nodup) :
    depVersion (Dependencies.applyDefaults d defs) mod = depVersion defs mod := by
  unfold Dependencies.applyDefaults
  by_cases hd : d.isEmpty
  · rw [if_pos hd]
  · rw [if_neg hd, depVersion_append, h, Option.none_or]
    have hdabs : ∀ x ∈ d, x.module ≠ mod := by
      intro x hx
      have := List.find?_eq_none.mp (by
        unfold depVersion at h
        exact Option.map_eq_none'.mp h) x hx
      simpa using this
    rw [depVersion_filterMap defs d _ mod hdabs
      (fun m' hm' => (mem_dedupFirst _ m').mp hm')]
    by_cases hmem : mod ∈ dedupFirst (defs.map fun x => x.module)
    · rw [if_pos hmem]
      exact depLookupLast_eq_depVersion defs mod hnd
    · rw [if_neg hmem]
      have hnotin : mod ∉ defs.map (fun x => x.module) := fun hc =>
        hmem ((mem_dedupFirst _ mod).mpr hc)
      unfold depVersion
      rw [List.find?_eq_none.mpr (fun x hx => by
        simp only [beq_iff_eq]
        exact fun hc => hnotin (List.mem_map.mpr ⟨x, hx, hc⟩))]
      rfl

theorem prepareForBuild_ok_eq {c : Composition} {m : TestPlanManifest} {cb : Composition}
    (h : c.prepareForBuild m = .ok cb) : cb = c.prepareForBuildApplied m := by
  unfold Composition.prepareForBuild at h
  split at h
  · cases h
  · split at h
    · cases h
    · injection h with h'
      exact h'.symm

theorem prepareForRun_ok_eq {c : Composition} {m : TestPlanManifest} {cr : Composition}
    {tcase : TestCase} (htc : m.testCaseByName c.global.case_ = some tcase)
    (h : c.prepareForRun m = .ok cr) : cr = c.prepareForRunApplied m tcase := by
  unfold Composition.prepareForRun at h
  simp only [htc] at h
  split at h
  · cases h
  · split at h
    · cases h
    · split at h
      · cases h
      · injection h with h'
        exact h'.symm

theorem prepareForBuildApplied_global_buildConfig (c : Composition) (m : TestPlanManifest) :
    (c.prepareForBuildApplied m).global.buildConfig = effectiveGlobalBuildConfig c m := by
  cases hlk : GoMap.lookup m.builders c.global.builder with
  | none =>
    simp only [Composition.prepareForBuildApplied, effectiveGlobalBuildConfig, hlk]
    cases hgb : c.global.build <;> simp only [hgb] <;> split <;> rfl
  | some bcfg =>
    simp only [Composition.prepareForBuildApplied, effectiveGlobalBuildConfig, hlk]
    cases hgb : c.global.build <;> simp only [hgb] <;> split <;> rfl

theorem prepareForBuildApplied_groups (c : Composition) (m : TestPlanManifest) :
    (c.prepareForBuildApplied m).groups = c.groups.map (buildGroupTransform c m) := by
  cases hlk : GoMap.lookup m.builders c.global.builder with
  | none =>
    simp only [Composition.prepareForBuildApplied, hlk]
    cases hgb : c.global.build <;> simp only [hgb] <;> split <;>
      · rename_i hempty
        try dsimp only
        try rw [List.map_map]
        first
          | exact List.map_congr_left (fun a _ => by
              simp [buildGroupTransform, buildGroupStage1, effectiveGlobalBuildConfig, hlk, hgb,
                hempty, Function.comp])
          | (conv_lhs => rw [← List.map_id c.groups])
            exact List.map_congr_left (fun a _ => by
              simp [buildGroupTransform, buildGroupStage1, effectiveGlobalBuildConfig, hlk, hgb,
                hempty, Function.comp])
  | some bcfg =>
    simp only [Composition.prepareForBuildApplied, hlk]
    cases hgb : c.global.build <;> simp only [hgb] <;> split <;>
      · rename_i hempty
        try dsimp only
        try rw [List.map_map]
        first
          | exact List.map_congr_left (fun a _ => by
              simp [buildGroupTransform, buildGroupStage1, effectiveGlobalBuildConfig, hlk, hgb,
                hempty, Function.comp])
          | (conv_lhs => rw [← List.map_id c.groups])
            exact List.map_congr_left (fun a _ => by
              simp [buildGroupTransform, buildGroupStage1, effectiveGlobalBuildConfig, hlk, hgb,
                hempty, Function.comp])

theorem prepareForRunApplied_groups (c : Composition) (m : TestPlanManifest) (tcase : TestCase) :
    (c.prepareForRunApplied m tcase).groups = c.groups.map (runGroupTransform c tcase) := by
  cases hlk : GoMap.lookup m.runners c.global.runner with
  | none =>
    simp only [Composition.prepareForRunApplied, hlk]
    cases hgr : c.global.run <;> simp only [hgr] <;>
      · try dsimp only
        try rw [List.map_map]
        exact List.map_congr_left (fun a _ => by
          simp [runGroupTransform, hgr, Function.comp])
  | some rcfg =>
    simp only [Composition.prepareForRunApplied, hlk]
    cases hgr : c.global.run <;> simp only [hgr] <;>
      · try dsimp only
        try rw [List.map_map]
        exact List.map_congr_left (fun a _ => by
          simp [runGroupTransform, hgr, Function.comp])

theorem lookup_effectiveGlobalBuildConfig (c : Composition) (m : TestPlanManifest) (k : String) :
    GoMap.lookup (effectiveGlobalBuildConfig c m) k
      = (GoMap.lookup c.global.buildConfig k).orElse
          (fun _ => (GoMap.lookup m.builders c.global.builder).bind
            (fun bcfg => GoMap.lookup bcfg k)) := by
  unfold effectiveGlobalBuildConfig
  cases GoMap.lookup m.builders c.global.builder with
  | none =>
    simp only [Option.bind_none]
    exact (Option.orElse_none _).symm
  | some bcfg =>
    rw [GoMap.lookup_trickle]
    rfl

theorem buildGroupStage1_buildConfig (c : Composition) (g : Group) :
    (buildGroupStage1 c g).buildConfig = g.buildConfig := by
  unfold buildGroupStage1
  cases c.global.build <;> rfl

theorem buildGroupTransform_buildConfig (c : Composition) (m : TestPlanManifest) (g : Group)
    (k : String) :
    GoMap.lookup (buildGroupTransform c m g).buildConfig k
      = (GoMap.lookup g.buildConfig k).orElse
          (fun _ => GoMap.lookup (effectiveGlobalBuildConfig c m) k) := by
  unfold buildGroupTransform
  by_cases hempty : (effectiveGlobalBuildConfig c m).isEmpty
  · rw [if_pos hempty, buildGroupStage1_buildConfig, List.isEmpty_iff.mp hempty]
    simp [GoMap.lookup]
  · rw [if_neg hempty]
    unfold Group.applyBuildConfig
    dsimp only
    rw [GoMap.lookup_trickle, buildGroupStage1_buildConfig]

theorem buildGroupTransform_build_some (c : Composition) (m : TestPlanManifest) (g : Group)
    (dflt : Build) (h : c.global.build = some dflt) :
    (buildGroupTransform c m g).build =
      ⟨if g.build.selectors.isEmpty then dflt.selectors else g.build.selectors,
       Dependencies.applyDefaults g.build.dependencies dflt.dependencies⟩ := by
  have h1 : (buildGroupStage1 c g).build =
      ⟨if g.build.selectors.isEmpty then dflt.selectors else g.build.selectors,
       Dependencies.applyDefaults g.build.dependencies dflt.dependencies⟩ := by
    unfold buildGroupStage1
    rw [h]
    rfl
  unfold buildGroupTransform
  by_cases hempty : (effectiveGlobalBuildConfig c m).isEmpty
  · rw [if_pos hempty]
    exact h1
  · rw [if_neg hempty]
    unfold Group.applyBuildConfig
    dsimp only
    exact h1

theorem buildGroupTransform_build_none (c : Composition) (m : TestPlanManifest) (g : Group)
    (h : c.global.build = none) : (buildGroupTransform c m g).build = g.build := by
  have h1 : (buildGroupStage1 c g).build = g.build := by
    unfold buildGroupStage1
    rw [h]
  unfold buildGroupTransform
  by_cases hempty : (effectiveGlobalBuildConfig c m).isEmpty
  · rw [if_pos hempty]
    exact h1
  · rw [if_neg hempty]
    unfold Group.applyBuildConfig
    dsimp only
    exact h1

theorem runGroupTransform_testParams (c : Composition) (tcase : TestCase) (g : Group)
    (k : String) :
    GoMap.lookup (runGroupTransform c tcase g).run.testParams k
      = ((GoMap.lookup g.run.testParams k).orElse (fun _ => globalTestParam c k)).orElse
          (fun _ => GoMap.lookup (renderedDefaults tcase) k) := by
  unfold runGroupTransform Group.applyParamDefaults globalTestParam
  cases hgr : c.global.run with
  | none =>
    dsimp only
    rw [GoMap.lookup_trickle]
    cases GoMap.lookup g.run.testParams k <;> simp [Option.orElse]
  | some dflt =>
    dsimp only [Group.applyRunDefaults]
    rw [GoMap.lookup_trickle, GoMap.lookup_trickle]

theorem runGroupTransform_profiles (c : Composition) (tcase : TestCase) (g : Group)
    (k : String) :
    GoMap.lookup (runGroupTransform c tcase g).run.profiles k
      = (GoMap.lookup g.run.profiles k).orElse (fun _ => globalProfile c k) := by
  unfold runGroupTransform Group.applyParamDefaults globalProfile
  cases hgr : c.global.run with
  | none =>
    dsimp only
    cases GoMap.lookup g.run.profiles k <;> simp [Option.orElse]
  | some dflt =>
    dsimp only [Group.applyRunDefaults]
    rw [GoMap.lookup_trickle]

/-- C7: for every composition, manifest and group position, after a
successful `PrepareForBuild` and `PrepareForRun` the group at that
position satisfies, key by key: the group's own value wins; where the
group is silent, the global default applies (the merged global build
config at the root level, the global dependency set per module, the global
selector list as a whole, the global Run test params and profiles); where
neither group nor trickled-down global sets a test param, the manifest's
test-case parameter default fills it — in particular a manifest default
never overrides a value coming from the composition's global Run block;
and the manifest's own builder config only fills keys the composition's
global build config did not set. -/
theorem claim7_trickle_down_wins_on_miss
    (c : Composition) (m : TestPlanManifest) (cb cr : Composition) (tcase : TestCase)
    (hb : c.prepareForBuild m = .ok cb)
    (htc : m.testCaseByName c.global.case_ = some tcase)
    (hr : c.prepareForRun m = .ok cr)
    (i : Nat) (g : Group) (hg : c.groups[i]? = some g) :
    (∀ k, GoMap.lookup cb.global.buildConfig k
        = (GoMap.lookup c.global.buildConfig k).orElse
            (fun _ => (GoMap.lookup m.builders c.global.builder).bind
              (fun bcfg => GoMap.lookup bcfg k))) ∧
    ∃ gb gr, cb.groups[i]? = some gb ∧ cr.groups[i]? = some gr ∧
      (∀ k, GoMap.lookup gb.buildConfig k
          = (GoMap.lookup g.buildConfig k).orElse
              (fun _ => GoMap.lookup (effectiveGlobalBuildConfig c m) k)) ∧
      (∀ dflt, c.global.build = some dflt →
        gb.build.selectors
            = (if g.build.selectors.isEmpty then dflt.selectors else g.build.selectors) ∧
          (∀ mod, (depVersion g.build.dependencies mod).isSome = true →
            depVersion gb.build.dependencies mod = depVersion g.build.dependencies mod) ∧
          ((dflt.dependencies.map (fun x => x.module)).Nodup →
            ∀ mod, depVersion g.build.dependencies mod = none →
              depVersion gb.build.dependencies mod = depVersion dflt.dependencies mod)) ∧
      (c.global.build = none → gb.build = g.build) ∧
      (∀ k, GoMap.lookup gr.run.testParams k
          = ((GoMap.lookup g.run.testParams k).orElse (fun _ => globalTestParam c k)).orElse
              (fun _ => GoMap.lookup (renderedDefaults tcase) k)) ∧
      (∀ k, GoMap.lookup gr.run.profiles k
          = (GoMap.lookup g.run.profiles k).orElse (fun _ => globalProfile c k)) ∧
      (∀ k v, GoMap.lookup g.run.testParams k = none → globalTestParam c k = some v →
        GoMap.lookup gr.run.testParams k = some v) := by
  have hcb := prepareForBuild_ok_eq hb
  have hcr := prepareForRun_ok_eq htc hr
  subst hcb hcr
  refine ⟨?_, ?_⟩
  · intro k
    rw [prepareForBuildApplied_global_buildConfig, lookup_effectiveGlobalBuildConfig]
  refine ⟨buildGroupTransform c m g, runGroupTransform c tcase g, ?_, ?_, ?_, ?_, ?_, ?_, ?_, ?_⟩
  · rw [prepareForBuildApplied_groups, List.getElem?_map, hg]
    rfl
  · rw [prepareForRunApplied_groups, List.getElem?_map, hg]
    rfl
  · exact buildGroupTransform_buildConfig c m g
  · intro dflt hdflt
    have hbs := buildGroupTransform_build_some c m g dflt hdflt
    refine ⟨by rw [hbs], ?_, ?_⟩
    · intro mod hsome
      rw [hbs]
      exact applyDefaults_version_present _ _ _ hsome
    · intro hnd mod hnone
      rw [hbs]
      exact applyDefaults_version_absent _ _ _ hnone hnd
  · exact buildGroupTransform_build_none c m g
  · exact runGroupTransform_testParams c tcase g
  · exact runGroupTransform_profiles c tcase g
  · intro k v hk hglob
    rw [runGroupTransform_testParams c tcase g k, hk, hglob]
    rfl

/-- Witness for `claim7_trickle_down_wins_on_miss` on `c7comp` against
`manifest7`: the group keeps its own values (`bkey2`, `depA`, `param1`),
absent keys take the composition-global defaults (`bkey`, `depB`,
`param2`, the selector list, the `cpu` profile), the manifest fills what
neither set (`bkey3` at the root, `param3`), and the manifest's `param1`
default overrides neither the group nor the globals. -/
theorem claim7_witness :
    c7comp.prepareForBuild manifest7 = .ok (c7comp.prepareForBuildApplied manifest7) ∧
    manifest7.testCaseByName c7comp.global.case_ = some c7tcase ∧
    c7comp.prepareForRun manifest7 = .ok (c7comp.prepareForRunApplied manifest7 c7tcase) ∧
    c7comp.groups[0]? = some c7group ∧
    GoMap.lookup ((c7comp.prepareForBuildApplied manifest7).groups.getD 0 emptyGroup).buildConfig
      "bkey2" = some (.str "L") ∧
    GoMap.lookup ((c7comp.prepareForBuildApplied manifest7).groups.getD 0 emptyGroup).buildConfig
      "bkey" = some (.str "G") ∧
    GoMap.lookup ((c7comp.prepareForBuildApplied manifest7).groups.getD 0 emptyGroup).buildConfig
      "bkey3" = some (.str "M") ∧
    ((c7comp.prepareForBuildApplied manifest7).groups.getD 0 emptyGroup).build.selectors
      = ["gsel"] ∧
    depVersion ((c7comp.prepareForBuildApplied manifest7).groups.getD 0 emptyGroup
      ).build.dependencies "depA" = some "1.over" ∧
    depVersion ((c7comp.prepareForBuildApplied manifest7).groups.getD 0 emptyGroup
      ).build.dependencies "depB" = some "2.default" ∧
    GoMap.lookup ((c7comp.prepareForRunApplied manifest7 c7tcase).groups.getD 0 emptyGroup
      ).run.testParams "param1" = some "X" ∧
    GoMap.lookup ((c7comp.prepareForRunApplied manifest7 c7tcase).groups.getD 0 emptyGroup
      ).run.testParams "param2" = some "B" ∧
    GoMap.lookup ((c7comp.prepareForRunApplied manifest7 c7tcase).groups.getD 0 emptyGroup
      ).run.testParams "param3" = some "D" ∧
    GoMap.lookup ((c7comp.prepareForRunApplied manifest7 c7tcase).groups.getD 0 emptyGroup
      ).run.profiles "cpu" = some "" := by
  obtain ⟨hglobal, gb, gr, hgb, hgr, hbc, hbs, hbn, htp, hprof, hover⟩ :=
    claim7_trickle_down_wins_on_miss c7comp manifest7
      (c7comp.prepareForBuildApplied manifest7)
      (c7comp.prepareForRunApplied manifest7 c7tcase)
      c7tcase (by decide) (by decide) (by decide) 0 c7group (by decide)
  have hgb' : (c7comp.prepareForBuildApplied manifest7).groups.getD 0 emptyGroup = gb := by
    rw [List.getD_eq_getElem?_getD, hgb]
    rfl
  have hgr' : (c7comp.prepareForRunApplied manifest7 c7tcase).groups.getD 0 emptyGroup = gr := by
    rw [List.getD_eq_getElem?_getD, hgr]
    rfl
  refine ⟨by decide, by decide, by decide, by decide,
    ?_, ?_, ?_, ?_, ?_, ?_, ?_, ?_, ?_, ?_⟩
  · rw [hgb', hbc "bkey2"]
    decide
  · rw [hgb', hbc "bkey"]
    decide
  · rw [hgb', hbc "bkey3"]
    decide
  · rw [hgb', (hbs _ rfl).1]
    decide
  · rw [hgb', (hbs _ rfl).2.1 "depA" (by decide)]
    decide
  · rw [hgb', (hbs _ rfl).2.2 (by decide) "depB" (by decide)]
    decide
  · rw [hgr', htp "param1"]
    decide
  · rw [hgr']
    exact hover "param2" "B" (by decide) (by decide)
  · rw [hgr', htp "param3"]
    decide
  · rw [hgr', hprof "cpu"]
    decide

theorem nodup_dedupFirstAux (seen l : List String) : (dedupFirstAux seen l).Nodup := by
  induction l generalizing seen with
  | nil => exact List.nodup_nil
  | cons x xs ih =>
    unfold dedupFirstAux
    by_cases hx : x ∈ seen
    · rw [if_pos hx]
      exact ih seen
    · rw [if_neg hx]
      refine List.nodup_cons.mpr ⟨?_, ih (x :: seen)⟩
      intro hc
      exact ((mem_dedupFirstAux (x :: seen) xs x).mp hc).2 (List.mem_cons_self x seen)

theorem nodup_uniqBuildKeys (groups : List Group) : (uniqBuildKeys groups).Nodup :=
  nodup_dedupFirstAux [] _

theorem mem_uniqBuildKeys (groups : List Group) (k : String) :
    k ∈ uniqBuildKeys groups ↔ k ∈ groups.map (fun g => g.build.buildKey) :=
  mem_dedupFirst _ k

theorem length_setAll (ress : List (Option BuildOutput)) (idxs : List Nat) (res : BuildOutput) :
    (setAll ress idxs res).length = ress.length := by
  induction idxs generalizing ress with
  | nil => rfl
  | cons j rest ih =>
    unfold setAll at ih ⊢
    rw [List.foldl_cons, ih, List.length_set]

theorem getElem?_setAll (ress : List (Option BuildOutput)) (idxs : List Nat)
    (res : BuildOutput) (i : Nat) :
    (setAll ress idxs res)[i]? =
      if i ∈ idxs ∧ i < ress.length then some (some res) else ress[i]? := by
  induction idxs generalizing ress with
  | nil =>
    rw [if_neg (by simp)]
    rfl
  | cons j rest ih =>
    unfold setAll at ih ⊢
    rw [List.foldl_cons, ih, List.length_set]
    by_cases hmem : i ∈ rest
    · by_cases hlt : i < ress.length
      · rw [if_pos ⟨hmem, hlt⟩, if_pos ⟨List.mem_cons_of_mem j hmem, hlt⟩]
      · rw [if_neg (fun hc => hlt hc.2), if_neg (fun hc => hlt hc.2), List.getElem?_set]
        split
        · rename_i hji
          rw [if_neg (by omega)]
          have : ress[i]? = none := List.getElem?_eq_none (by omega)
          rw [this]
        · rfl
    · rw [if_neg (fun hc => hmem hc.1), List.getElem?_set]
      by_cases hji : j = i
      · subst hji
        by_cases hlt : j < ress.length
        · rw [if_pos rfl, if_pos hlt, if_pos ⟨List.mem_cons_self j rest, hlt⟩]
        · rw [if_pos rfl, if_neg hlt, if_neg (fun hc => hlt hc.2)]
          exact (List.getElem?_eq_none (by omega)).symm
      · rw [if_neg hji]
        by_cases hij : i ∈ [j]
        · exact absurd (List.mem_singleton.mp hij).symm hji
        · rw [if_neg (fun hc => by
            rcases List.mem_cons.mp hc.1 with h | h
            · exact hji h.symm
            · exact hmem h)]

theorem mem_classIndices (groups : List Group) (k : String) (i : Nat) :
    i ∈ classIndices groups k ↔
      i < groups.length ∧ (groups.getD i emptyGroup).build.buildKey = k := by
  unfold classIndices
  rw [List.mem_filter, List.mem_range]
  simp

theorem classRep_spec (groups : List Group) (k : String)
    (h : k ∈ uniqBuildKeys groups) :
    classRep groups k ∈ classIndices groups k ∧
      ∀ i ∈ classIndices groups k, classRep groups k ≤ i := by
  have hne : classIndices groups k ≠ [] := by
    rcases List.mem_map.mp ((mem_uniqBuildKeys groups k).mp h) with ⟨g, hg, hk⟩
    rcases List.getElem_of_mem hg with ⟨j, hj, hgj⟩
    intro hc
    have : j ∈ classIndices groups k := by
      rw [mem_classIndices]
      refine ⟨hj, ?_⟩
      rw [List.getD_eq_getElem?_getD, List.getElem?_eq_getElem hj, hgj]
      exact hk
    rw [hc] at this
    cases this
  have hsorted : List.Pairwise (fun a b => a < b) (classIndices groups k) :=
    List.Pairwise.filter _ (List.pairwise_lt_range groups.length)
  cases hcl : classIndices groups k with
  | nil => exact absurd hcl hne
  | cons a t =>
    rw [hcl] at hsorted
    constructor
    · unfold classRep
      rw [hcl]
      exact List.mem_cons_self a t
    · intro i hi
      unfold classRep
      rw [hcl]
      rcases List.mem_cons.mp hi with hh | hh
      · subst hh
        exact le_refl _
      · exact le_of_lt ((List.pairwise_cons.mp hsorted).1 i hh)

theorem runBuildFibers_ok (bmId : String) (bm : Group → Except String BuildOutput)
    (groups : List Group) (ks : List String) (ress : List (Option BuildOutput))
    (hlen : ress.length = groups.length)
    (hok : ∀ k ∈ ks, (bm (groups.getD (classRep groups k) emptyGroup)).isOk = true) :
    (runBuildFibers bmId bm groups ks ress).1 = ks.map (classRep groups) ∧
    ∃ final, (runBuildFibers bmId bm groups ks ress).2 = .ok final ∧
      final.length = groups.length ∧
      ∀ i, i < groups.length →
        final[i]? = if (groups.getD i emptyGroup).build.buildKey ∈ ks
          then some (classOutput bmId bm groups ((groups.getD i emptyGroup).build.buildKey))
          else ress[i]? := by
  induction ks generalizing ress with
  | nil =>
    refine ⟨rfl, ress, rfl, hlen, fun i hi => ?_⟩
    rw [if_neg (by simp)]
  | cons k rest ih =>
    have hkok := hok k (List.mem_cons_self k rest)
    cases hbm : bm (groups.getD (classRep groups k) emptyGroup) with
    | error e =>
      rw [hbm] at hkok
      cases hkok
    | ok res =>
      have hco : classOutput bmId bm groups k = some { res with builderID := bmId } := by
        unfold classOutput
        rw [hbm]
      simp only [runBuildFibers, hbm]
      have hlen' : (setAll ress (classIndices groups k) { res with builderID := bmId }).length
          = groups.length := by
        rw [length_setAll, hlen]
      have hrest := ih _ hlen' (fun k' hk' => hok k' (List.mem_cons_of_mem k hk'))
      refine ⟨by rw [List.map_cons, ← hrest.1], ?_⟩
      rcases hrest.2 with ⟨final, hfinal, hflen, hfi⟩
      refine ⟨final, hfinal, hflen, fun i hi => ?_⟩
      rw [hfi i hi]
      by_cases hmem : (groups.getD i emptyGroup).build.buildKey ∈ rest
      · rw [if_pos hmem, if_pos (List.mem_cons_of_mem k hmem)]
      · rw [if_neg hmem]
        by_cases hk : (groups.getD i emptyGroup).build.buildKey = k
        · rw [if_pos (by rw [hk]; exact List.mem_cons_self k rest)]
          rw [getElem?_setAll]
          rw [if_pos ⟨(mem_classIndices groups k i).mpr ⟨hi, hk⟩, by rw [hlen]; exact hi⟩]
          rw [hk, hco]
        · rw [if_neg (fun hc => by
            rcases List.mem_cons.mp hc with h | h
            · exact hk h
            · exact hmem h)]
          rw [getElem?_setAll]
          rw [if_neg (fun hc => hk ((mem_classIndices groups k i).mp hc.1).2)]

theorem runBuildFibers_err (bmId : String) (bm : Group → Except String BuildOutput)
    (groups : List Group) (ks : List String) (ress : List (Option BuildOutput))
    (hbad : ∃ k ∈ ks, (bm (groups.getD (classRep groups k) emptyGroup)).isOk = false) :
    ∃ e, (runBuildFibers bmId bm groups ks ress).2 = .error e ∧
      ∃ k ∈ ks, bm (groups.getD (classRep groups k) emptyGroup) = .error e := by
  induction ks generalizing ress with
  | nil =>
    rcases hbad with ⟨k, hk, _⟩
    cases hk
  | cons k rest ih =>
    cases hbm : bm (groups.getD (classRep groups k) emptyGroup) with
    | error e =>
      simp only [runBuildFibers, hbm]
      exact ⟨e, rfl, k, List.mem_cons_self k rest, hbm⟩
    | ok res =>
      rcases hbad with ⟨k', hk', hbf⟩
      have hk'rest : k' ∈ rest := by
        rcases List.mem_cons.mp hk' with h | h
        · subst h
          rw [hbm] at hbf
          cases hbf
        · exact h
      simp only [runBuildFibers, hbm]
      rcases ih _ ⟨k', hk'rest, hbf⟩ with ⟨e, he, k'', hk'', hb⟩
      exact ⟨e, he, k'', List.mem_cons_of_mem k hk'', hb⟩

/-- C9: `doBuild`'s fan-out, for any builder and prepared group list: the
unique build keys are exactly the distinct BuildKeys of the groups (k of
them, each counted once); when every class's build succeeds, the builder
is invoked exactly once per unique key — on the first group of each
equivalence class (the least index with that key) — and the result slice
has exactly one entry per original group in the original order, every
entry non-nil and entries of one equivalence class equal; when some
class's build fails, an error of a failing class is returned instead. -/
theorem claim9_build_fanout (bmId : String) (bm : Group → Except String BuildOutput)
    (groups : List Group) :
    ((uniqBuildKeys groups).Nodup ∧
      (∀ key, key ∈ uniqBuildKeys groups ↔ key ∈ groups.map (fun g => g.build.buildKey)) ∧
      (∀ k ∈ uniqBuildKeys groups,
        (groups.getD (classRep groups k) emptyGroup).build.buildKey = k ∧
          ∀ i ∈ classIndices groups k, classRep groups k ≤ i)) ∧
    ((∀ k ∈ uniqBuildKeys groups,
        (bm (groups.getD (classRep groups k) emptyGroup)).isOk = true) →
      (doBuildFan bmId bm groups).1 = (uniqBuildKeys groups).map (classRep groups) ∧
      (doBuildFan bmId bm groups).1.length = (uniqBuildKeys groups).length ∧
      ∃ ress, (doBuildFan bmId bm groups).2 = .ok ress ∧
        ress.length = groups.length ∧
        (∀ i, i < groups.length →
          ress[i]? = some (classOutput bmId bm groups
              ((groups.getD i emptyGroup).build.buildKey)) ∧
            (classOutput bmId bm groups ((groups.getD i emptyGroup).build.buildKey)).isSome
              = true) ∧
        (∀ i j, i < groups.length → j < groups.length →
          (groups.getD i emptyGroup).build.buildKey = (groups.getD j emptyGroup).build.buildKey →
          ress[i]? = ress[j]?)) ∧
    ((∃ k ∈ uniqBuildKeys groups,
        (bm (groups.getD (classRep groups k) emptyGroup)).isOk = false) →
      ∃ e, (doBuildFan bmId bm groups).2 = .error e ∧
        ∃ k ∈ uniqBuildKeys groups,
          bm (groups.getD (classRep groups k) emptyGroup) = .error e) := by
  refine ⟨⟨nodup_uniqBuildKeys groups, mem_uniqBuildKeys groups, fun k hk => ?_⟩, ?_, ?_⟩
  · rcases classRep_spec groups k hk with ⟨hmem, hle⟩
    exact ⟨((mem_classIndices groups k _).mp hmem).2, hle⟩
  · intro hok
    unfold doBuildFan
    have hkey : ∀ i, i < groups.length →
        (groups.getD i emptyGroup).build.buildKey ∈ uniqBuildKeys groups := by
      intro i hi
      rw [mem_uniqBuildKeys]
      refine List.mem_map.mpr ⟨groups.getD i emptyGroup, ?_, rfl⟩
      rw [List.getD_eq_getElem?_getD, List.getElem?_eq_getElem hi]
      exact List.getElem_mem hi
    rcases runBuildFibers_ok bmId bm groups (uniqBuildKeys groups)
        (List.replicate groups.length none) (by rw [List.length_replicate]) hok with
      ⟨hcalls, final, hfinal, hflen, hfi⟩
    refine ⟨hcalls, by rw [hcalls, List.length_map], final, hfinal, hflen, ?_, ?_⟩
    · intro i hi
      have := hfi i hi
      rw [if_pos (hkey i hi)] at this
      refine ⟨this, ?_⟩
      have hkok := hok _ (hkey i hi)
      unfold classOutput
      cases hbm : bm (groups.getD
          (classRep groups ((groups.getD i emptyGroup).build.buildKey)) emptyGroup) with
      | error e => rw [hbm] at hkok; cases hkok
      | ok res => rfl
    · intro i j hi hj hij
      have h1 := hfi i hi
      have h2 := hfi j hj
      rw [if_pos (hkey i hi)] at h1
      rw [if_pos (hkey j hj)] at h2
      rw [h1, h2, hij]
  · intro hbad
    unfold doBuildFan
    exact runBuildFibers_err bmId bm groups (uniqBuildKeys groups)
      (List.replicate groups.length none) hbad

/-- Witness for `claim9_build_fanout`: three groups with two distinct
build keys (the first two share one) fan out to two builder invocations,
on representatives 0 and 2, and the three result entries are non-nil and
equal within the shared class; with a failing builder an error of a
failing class is returned. -/
theorem claim9_witness :
    (∀ k ∈ uniqBuildKeys fanGroups,
      (sampleBuilder (fanGroups.getD (classRep fanGroups k) emptyGroup)).isOk = true) ∧
    (uniqBuildKeys fanGroups).length = 2 ∧
    (doBuildFan "bid" sampleBuilder fanGroups).1 = [0, 2] ∧
    (doBuildFan "bid" sampleBuilder fanGroups).1.length = (uniqBuildKeys fanGroups).length ∧
    (doBuildFan "bid" sampleBuilder fanGroups).2 =
      .ok [some ⟨"art-g1", "bid"⟩, some ⟨"art-g1", "bid"⟩, some ⟨"art-g3", "bid"⟩] ∧
    (∃ k ∈ uniqBuildKeys fanGroups,
      (failingBuilder (fanGroups.getD (classRep fanGroups k) emptyGroup)).isOk = false) ∧
    ∃ e, (doBuildFan "bid" failingBuilder fanGroups).2 = .error e ∧
      ∃ k ∈ uniqBuildKeys fanGroups,
        failingBuilder (fanGroups.getD (classRep fanGroups k) emptyGroup) = .error e := by
  refine ⟨by decide, by decide, by decide,
    ((claim9_build_fanout "bid" sampleBuilder fanGroups).2.1 (by decide)).2.1,
    by decide, by decide,
    (claim9_build_fanout "bid" failingBuilder fanGroups).2.2 (by decide)⟩

theorem sortStrings_sorted (l : List String) : List.Sorted strLe (sortStrings l) :=
  List.sorted_insertionSort strLe l

theorem sortStrings_eq_of_perm {l₁ l₂ : List String} (h : l₁.Perm l₂) :
    sortStrings l₁ = sortStrings l₂ :=
  List.eq_of_perm_of_sorted
    ((List.perm_insertionSort strLe l₁).trans (h.trans (List.perm_insertionSort strLe l₂).symm))
    (sortStrings_sorted l₁) (sortStrings_sorted l₂)

theorem sortDeps_sorted (l : List Dependency) : List.Sorted depLE (sortDeps l) :=
  List.sorted_insertionSort depLE l

theorem sortDeps_perm (l : List Dependency) : (sortDeps l).Perm l :=
  List.perm_insertionSort depLE l

theorem eq_of_perm_sorted_nodup_modules (l₁ : List Dependency) :
    ∀ l₂, l₁.Perm l₂ → List.Sorted depLE l₁ → List.Sorted depLE l₂ →
      (l₁.map (fun d => d.module)).Nodup → l₁ = l₂ := by
  induction l₁ with
  | nil =>
    intro l₂ hp _ _ _
    exact (List.Perm.eq_nil hp.symm).symm
  | cons a t₁ ih =>
    intro l₂ hp hs₁ hs₂ hnd
    cases l₂ with
    | nil =>
      cases List.Perm.eq_nil hp
    | cons b t₂ =>
      have hnd' : (∀ x ∈ t₁, ¬x.module = a.module) ∧
          (t₁.map (fun d => d.module)).Nodup := by simpa using hnd
      by_cases hab : a = b
      · subst hab
        have ht := hp.cons_inv
        rw [ih t₂ ht (List.sorted_cons.mp hs₁).2 (List.sorted_cons.mp hs₂).2 hnd'.2]
      · have hamem : a ∈ b :: t₂ := hp.subset (List.mem_cons_self a t₁)
        have hat₂ : a ∈ t₂ := by
          rcases List.mem_cons.mp hamem with h | h
          · exact absurd h hab
          · exact h
        have hbmem : b ∈ a :: t₁ := hp.symm.subset (List.mem_cons_self b t₂)
        have hbt₁ : b ∈ t₁ := by
          rcases List.mem_cons.mp hbmem with h | h
          · exact absurd h.symm hab
          · exact h
        have h1 : depLE a b := (List.sorted_cons.mp hs₁).1 b hbt₁
        have h2 : depLE b a := (List.sorted_cons.mp hs₂).1 a hat₂
        have hmod : a.module = b.module := String.ext (le_antisymm h1 h2)
        exact absurd hmod.symm (hnd'.1 b hbt₁)

theorem sortDeps_eq_of_perm {d₁ d₂ : List Dependency} (hperm : d₁.Perm d₂)
    (hnd : (d₁.map (fun d => d.module)).Nodup) : sortDeps d₁ = sortDeps d₂ := by
  refine eq_of_perm_sorted_nodup_modules (sortDeps d₁) (sortDeps d₂)
    ((sortDeps_perm d₁).trans (hperm.trans (sortDeps_perm d₂).symm))
    (sortDeps_sorted d₁) (sortDeps_sorted d₂) ?_
  exact (((sortDeps_perm d₁).map (fun d => d.module)).nodup_iff).mpr hnd

theorem foldl_append_data (l : List String) :
    ∀ a : String, (l.foldl (· ++ ·) a).data = a.data ++ (l.map String.data).flatten := by
  induction l with
  | nil =>
    intro a
    simp
  | cons s t ih =>
    intro a
    rw [List.foldl_cons, ih, String.data_append]
    simp [List.append_assoc]

theorem map_data_flatten_chunks (l : List Dependency) :
    ((l.map (fun d => d.module ++ ":" ++ d.version ++ "|")).map String.data).flatten
      = chunksL (l.map pairData) := by
  induction l with
  | nil => rfl
  | cons d t ih =>
    simp only [List.map_cons, List.flatten_cons, chunksL, ih]
    congr 1
    unfold chunkL pairData
    simp [String.data_append, List.append_assoc]

theorem join_chunks (l : List Dependency) :
    (String.join (l.map (fun d => d.module ++ ":" ++ d.version ++ "|"))).data
      = chunksL (l.map pairData) := by
  have hbase : (String.join (l.map (fun d => d.module ++ ":" ++ d.version ++ "|"))).data
      = ((l.map (fun d => d.module ++ ":" ++ d.version ++ "|")).map String.data).flatten := by
    unfold String.join
    rw [foldl_append_data]
    rfl
  rw [hbase, map_data_flatten_chunks]

theorem buildKey_data (b : Build) :
    (Build.buildKey b).data
      = keyPrefix b.selectors ++ chunksL ((sortDeps b.dependencies).map pairData) := by
  unfold Build.buildKey keyPrefix
  rw [String.data_append, join_chunks]

theorem append_cons_inj {α : Type} (c : α) : ∀ (a₁ a₂ b₁ b₂ : List α), c ∉ a₁ → c ∉ a₂ →
    a₁ ++ c :: b₁ = a₂ ++ c :: b₂ → a₁ = a₂ ∧ b₁ = b₂ := by
  intro a₁
  induction a₁ with
  | nil =>
    intro a₂ b₁ b₂ _ h₂ heq
    cases a₂ with
    | nil => simpa using heq
    | cons y t =>
      simp only [List.nil_append, List.cons_append, List.cons.injEq] at heq
      exact absurd (by rw [heq.1]; exact List.mem_cons_self y t) h₂
  | cons x t ih =>
    intro a₂ b₁ b₂ h₁ h₂ heq
    cases a₂ with
    | nil =>
      simp only [List.nil_append, List.cons_append, List.cons.injEq] at heq
      exact absurd (by rw [← heq.1]; exact List.mem_cons_self x t) h₁
    | cons y t₂ =>
      simp only [List.cons_append, List.cons.injEq] at heq
      have hx : c ∉ t := fun hc => h₁ (List.mem_cons_of_mem x hc)
      have hy : c ∉ t₂ := fun hc => h₂ (List.mem_cons_of_mem y hc)
      rcases ih t₂ b₁ b₂ hx hy heq.2 with ⟨he1, he2⟩
      exact ⟨by rw [heq.1, he1], he2⟩

theorem chunkL_append_inj {m₁ m₂ v₁ v₂ r₁ r₂ : List Char}
    (hm₁ : ':' ∉ m₁) (hm₂ : ':' ∉ m₂) (hv₁ : '|' ∉ v₁) (hv₂ : '|' ∉ v₂)
    (h : chunkL m₁ v₁ ++ r₁ = chunkL m₂ v₂ ++ r₂) :
    m₁ = m₂ ∧ v₁ = v₂ ∧ r₁ = r₂ := by
  unfold chunkL at h
  simp only [List.append_assoc, List.cons_append, List.singleton_append] at h
  rcases append_cons_inj ':' m₁ m₂ _ _ hm₁ hm₂ h with ⟨h1, h2⟩
  rcases append_cons_inj '|' v₁ v₂ _ _ hv₁ hv₂ h2 with ⟨h3, h4⟩
  exact ⟨h1, h3, h4⟩

theorem chunksL_inj : ∀ (l₁ l₂ : List (List Char × List Char)),
    (∀ p ∈ l₁, ':' ∉ p.1 ∧ '|' ∉ p.2) → (∀ p ∈ l₂, ':' ∉ p.1 ∧ '|' ∉ p.2) →
    chunksL l₁ = chunksL l₂ → l₁ = l₂ := by
  intro l₁
  induction l₁ with
  | nil =>
    intro l₂ _ _ h
    cases l₂ with
    | nil => rfl
    | cons p t =>
      exfalso
      unfold chunksL chunkL at h
      rcases List.append_eq_nil.mp h.symm with ⟨h1, _⟩
      rcases List.append_eq_nil.mp h1 with ⟨_, h2⟩
      cases h2
  | cons p t ih =>
    intro l₂ hf₁ hf₂ h
    cases l₂ with
    | nil =>
      exfalso
      unfold chunksL chunkL at h
      rcases List.append_eq_nil.mp h with ⟨h1, _⟩
      rcases List.append_eq_nil.mp h1 with ⟨_, h2⟩
      cases h2
    | cons q t₂ =>
      unfold chunksL at h
      rcases chunkL_append_inj (hf₁ p (List.mem_cons_self p t)).1
        (hf₂ q (List.mem_cons_self q t₂)).1 (hf₁ p (List.mem_cons_self p t)).2
        (hf₂ q (List.mem_cons_self q t₂)).2 h with ⟨h1, h2, h3⟩
      rw [ih t₂ (fun x hx => hf₁ x (List.mem_cons_of_mem p hx))
        (fun x hx => hf₂ x (List.mem_cons_of_mem q hx)) h3]
      congr 1
      exact Prod.ext h1 h2

theorem perm_set_ne {α : Type} [DecidableEq α] (l : List α) (j : Nat) (hj : j < l.length)
    (x : α) (hx : x ≠ l[j]) : ¬ l.Perm (l.set j x) := by
  intro hperm
  obtain ⟨a, ha⟩ : ∃ a, l[j] = a := ⟨l[j], rfl⟩
  have hcount := hperm.count_eq a
  have hsplit : l = l.take j ++ a :: l.drop (j + 1) := by
    rw [← ha]
    conv_lhs => rw [← List.take_append_drop j l]
    rw [List.drop_eq_getElem_cons hj]
  have hset : l.set j x = l.take j ++ x :: l.drop (j + 1) := by
    rw [List.set_eq_take_append_cons_drop, if_pos hj]
  rw [ha] at hx
  have h1 : List.count a l
      = List.count a (l.take j) + (List.count a (l.drop (j + 1)) + 1) := by
    conv_lhs => rw [hsplit]
    rw [List.count_append, List.count_cons]
    simp
  have h2 : List.count a (l.set j x)
      = List.count a (l.take j) + List.count a (l.drop (j + 1)) := by
    rw [hset, List.count_append, List.count_cons]
    have hxf : (x == a) = false := by
      simpa using hx
    rw [hxf]
    simp
  omega

theorem orderedInsert_forall₂ {a b : Dependency} {l₁ l₂ : List Dependency}
    (hab : depFieldsEq a b) (h : List.Forall₂ depFieldsEq l₁ l₂) :
    List.Forall₂ depFieldsEq (List.orderedInsert depLE a l₁) (List.orderedInsert depLE b l₂) := by
  induction h with
  | nil => exact List.Forall₂.cons hab List.Forall₂.nil
  | cons hxy hrest ih =>
    rename_i x y t₁ t₂
    have hcond : depLE a x ↔ depLE b y := by
      unfold depLE strLe
      rw [hab.1, hxy.1]
    simp only [List.orderedInsert]
    by_cases hc : depLE a x
    · rw [if_pos hc, if_pos (hcond.mp hc)]
      exact List.Forall₂.cons hab (List.Forall₂.cons hxy hrest)
    · rw [if_neg hc, if_neg (fun h2 => hc (hcond.mpr h2))]
      exact List.Forall₂.cons hxy ih

theorem insertionSort_forall₂ {l₁ l₂ : List Dependency}
    (h : List.Forall₂ depFieldsEq l₁ l₂) :
    List.Forall₂ depFieldsEq (sortDeps l₁) (sortDeps l₂) := by
  unfold sortDeps
  induction h with
  | nil => exact List.Forall₂.nil
  | cons hxy hrest ih =>
    simp only [List.insertionSort]
    exact orderedInsert_forall₂ hxy ih

theorem map_pairData_eq_of_forall₂ {l₁ l₂ : List Dependency}
    (h : List.Forall₂ depFieldsEq l₁ l₂) : l₁.map pairData = l₂.map pairData := by
  induction h with
  | nil => rfl
  | cons hxy hrest ih =>
    simp only [List.map_cons, ih]
    congr 1
    unfold pairData
    rw [hxy.1, hxy.2]

theorem buildKey_target_irrelevant (sel : List String) {d₁ d₂ : List Dependency}
    (h : List.Forall₂ depFieldsEq d₁ d₂) :
    Build.buildKey ⟨sel, d₁⟩ = Build.buildKey ⟨sel, d₂⟩ := by
  apply String.ext
  rw [buildKey_data, buildKey_data]
  congr 1
  rw [map_pairData_eq_of_forall₂ (insertionSort_forall₂ h)]

theorem buildKey_change_ne (sel : List String) (d : List Dependency) (j : Nat)
    (hj : j < d.length) (dep' : Dependency)
    (hfree : ∀ dep ∈ d, delimFreeDep dep) (hfree' : delimFreeDep dep')
    (hne : dep'.module ≠ d[j].module ∨ dep'.version ≠ d[j].version) :
    Build.buildKey ⟨sel, d⟩ ≠ Build.buildKey ⟨sel, d.set j dep'⟩ := by
  intro hkey
  have hdata := congrArg String.data hkey
  rw [buildKey_data, buildKey_data] at hdata
  have hchunks := List.append_cancel_left hdata
  have hfa : ∀ p ∈ (sortDeps d).map pairData, ':' ∉ p.1 ∧ '|' ∉ p.2 := by
    intro p hp
    rcases List.mem_map.mp hp with ⟨dep, hdep, hpd⟩
    rcases hfree dep ((sortDeps_perm d).subset hdep) with ⟨hh1, hh2⟩
    rw [← hpd]
    exact ⟨hh1, hh2⟩
  have hfa₂ : ∀ p ∈ (sortDeps (d.set j dep')).map pairData, ':' ∉ p.1 ∧ '|' ∉ p.2 := by
    intro p hp
    rcases List.mem_map.mp hp with ⟨dep, hdep, hpd⟩
    rcases List.mem_or_eq_of_mem_set ((sortDeps_perm _).subset hdep) with hmem | hmem
    · rcases hfree dep hmem with ⟨hh1, hh2⟩
      rw [← hpd]
      exact ⟨hh1, hh2⟩
    · rw [← hpd, hmem]
      exact hfree'
  have hmaps := chunksL_inj _ _ hfa hfa₂ hchunks
  have h1 : (d.map pairData).Perm ((sortDeps d).map pairData) :=
    ((sortDeps_perm d).map pairData).symm
  have h2 : ((sortDeps (d.set j dep')).map pairData).Perm ((d.set j dep').map pairData) :=
    (sortDeps_perm _).map pairData
  rw [← hmaps] at h2
  have hperm := h1.trans h2
  rw [List.map_set] at hperm
  have hjm : j < (d.map pairData).length := by
    rw [List.length_map]
    exact hj
  refine perm_set_ne (d.map pairData) j hjm (pairData dep') ?_ hperm
  intro hc
  have hg : (d.map pairData)[j] = pairData d[j] := List.getElem_map _
  rw [hg] at hc
  unfold pairData at hc
  have hm := congrArg Prod.fst hc
  have hv := congrArg Prod.snd hc
  simp only at hm hv
  rcases hne with hne | hne
  · exact hne (String.ext hm)
  · exact hne (String.ext hv)

/-- C8 counterexample: (a) two Build blocks whose dependency lists are
permutations of each other (two versions of one module) have different
BuildKeys — the stable sort keeps tied modules in input order; (b) two
Build blocks that differ only in one dependency's module name
(`a:v|b` vs `b:v|a`, version and target unchanged, the other dependency
identical) have the same BuildKey — the ':' and '|' delimiters inside the
module names make two different dependency lists render identically. -/
theorem claim8_counterexample :
    (bPerm1.dependencies.Perm bPerm2.dependencies ∧ bPerm1.selectors = bPerm2.selectors ∧
      bPerm1.buildKey ≠ bPerm2.buildKey) ∧
    (bMod1.selectors = bMod2.selectors ∧
      bMod2.dependencies = bMod1.dependencies.set 0 ⟨"b:v|a", "", "v"⟩ ∧
      (bMod2.dependencies.getD 0 ⟨"", "", ""⟩).module
        ≠ (bMod1.dependencies.getD 0 ⟨"", "", ""⟩).module ∧
      (bMod2.dependencies.getD 0 ⟨"", "", ""⟩).version
        = (bMod1.dependencies.getD 0 ⟨"", "", ""⟩).version ∧
      (bMod2.dependencies.getD 0 ⟨"", "", ""⟩).target
        = (bMod1.dependencies.getD 0 ⟨"", "", ""⟩).target ∧
      bMod1.buildKey = bMod2.buildKey) := by
  refine ⟨⟨by decide, by decide, by decide⟩, by decide, by decide, by decide, by decide,
    by decide, by decide⟩

/-- C8 (amended): `BuildKey` renders sorted selectors and dependencies
stably sorted by module as `selectors=<csv>;dependencies=<module>:<version>|…`.
Permuting selectors never changes the key.  Permuting dependencies does
not change the key when the modules are pairwise distinct (with duplicate
modules the stable sort keeps tied entries in input order, so a
permutation can change the key).  The target field never influences the
key: any two dependency lists agreeing module- and version-wise give equal
keys.  Replacing one dependency by one with a different module name or
version changes the key, provided module names contain no ':' and
versions contain no '|' (with such delimiters inside the fields, distinct
lists can render the same string). -/
theorem claim8_buildkey_amended :
    (∀ b₁ b₂ : Build, b₁.selectors.Perm b₂.selectors → b₁.dependencies = b₂.dependencies →
      b₁.buildKey = b₂.buildKey) ∧
    (∀ b₁ b₂ : Build, b₁.dependencies.Perm b₂.dependencies →
      (b₁.dependencies.map (fun d => d.module)).Nodup → b₁.selectors = b₂.selectors →
      b₁.buildKey = b₂.buildKey) ∧
    (∀ (sel : List String) (d₁ d₂ : List Dependency), List.Forall₂ depFieldsEq d₁ d₂ →
      Build.buildKey ⟨sel, d₁⟩ = Build.buildKey ⟨sel, d₂⟩) ∧
    (∀ (sel : List String) (d : List Dependency) (j : Nat) (hj : j < d.length)
      (dep' : Dependency), (∀ dep ∈ d, delimFreeDep dep) → delimFreeDep dep' →
      (dep'.module ≠ d[j].module ∨ dep'.version ≠ d[j].version) →
      Build.buildKey ⟨sel, d⟩ ≠ Build.buildKey ⟨sel, d.set j dep'⟩) := by
  refine ⟨?_, ?_, fun sel d₁ d₂ h => buildKey_target_irrelevant sel h, buildKey_change_ne⟩
  · intro b₁ b₂ hperm hdeps
    unfold Build.buildKey
    rw [sortStrings_eq_of_perm hperm, hdeps]
  · intro b₁ b₂ hperm hnd hsel
    unfold Build.buildKey
    rw [hsel]
    unfold sortDeps
    rw [show List.insertionSort depLE b₁.dependencies
        = List.insertionSort depLE b₂.dependencies from sortDeps_eq_of_perm hperm hnd]

/-- Witness for `claim8_buildkey_amended`: a selector permutation, a
dependency permutation with distinct modules, a target-only change, and a
version change on delimiter-free fields, each at a concrete Build block. -/
theorem claim8_witness :
    ((["b", "a"] : List String).Perm ["a", "b"] ∧
      Build.buildKey ⟨["b", "a"], [⟨"m", "t", "1"⟩]⟩
        = Build.buildKey ⟨["a", "b"], [⟨"m", "t", "1"⟩]⟩) ∧
    (([⟨"x", "", "1"⟩, ⟨"y", "", "2"⟩] : List Dependency).Perm
        [⟨"y", "", "2"⟩, ⟨"x", "", "1"⟩] ∧
      Build.buildKey ⟨["s"], [⟨"x", "", "1"⟩, ⟨"y", "", "2"⟩]⟩
        = Build.buildKey ⟨["s"], [⟨"y", "", "2"⟩, ⟨"x", "", "1"⟩]⟩) ∧
    Build.buildKey ⟨[], [⟨"x", "t1", "1"⟩]⟩ = Build.buildKey ⟨[], [⟨"x", "t2", "1"⟩]⟩ ∧
    Build.buildKey ⟨[], [⟨"x", "", "1"⟩]⟩
      ≠ Build.buildKey ⟨[], ([⟨"x", "", "1"⟩] : List Dependency).set 0 ⟨"x", "", "2"⟩⟩ := by
  refine ⟨⟨by decide, ?_⟩, ⟨by decide, ?_⟩, ?_, ?_⟩
  · exact claim8_buildkey_amended.1 ⟨["b", "a"], [⟨"m", "t", "1"⟩]⟩
      ⟨["a", "b"], [⟨"m", "t", "1"⟩]⟩ (by decide) (by decide)
  · exact claim8_buildkey_amended.2.1 ⟨["s"], [⟨"x", "", "1"⟩, ⟨"y", "", "2"⟩]⟩
      ⟨["s"], [⟨"y", "", "2"⟩, ⟨"x", "", "1"⟩]⟩ (by decide) (by decide) (by decide)
  · exact claim8_buildkey_amended.2.2.1 [] [⟨"x", "t1", "1"⟩] [⟨"x", "t2", "1"⟩]
      (List.Forall₂.cons ⟨rfl, rfl⟩ List.Forall₂.nil)
  · exact claim8_buildkey_amended.2.2.2 [] [⟨"x", "", "1"⟩] 0 (by decide) ⟨"x", "", "2"⟩
      (by decide) (by decide) (by decide)

/-- C5: `ValidateForRun` gives every group whose `count` is nonzero that
count, gives every other group `round(percentage * total_instances)`
(exactly that value whenever it lies in the `uint` range), succeeds only
when the computed counts sum to `Global.TotalInstances` (the accumulator
is a Go `uint`, hence the modulus; below `2^64` the sum is exact), and
reports InstanceCountMismatch whenever structural validation passes but
the sum differs. -/
theorem claim5_validateForRun_instance_counts (c : Composition) :
    (∀ g ∈ c.groups, g.instances.count ≠ 0 →
        calcInstanceCount c.global.totalInstances g.instances = g.instances.count) ∧
    (∀ g ∈ c.groups, g.instances.count = 0 → 0 ≤ g.instances.percentage →
        goRound (g.instances.percentage * (c.global.totalInstances : Rat)) < 2 ^ 64 →
        (calcInstanceCount c.global.totalInstances g.instances : Int) =
          goRound (g.instances.percentage * (c.global.totalInstances : Rat))) ∧
    (∀ r, c.validateForRun = .ok r →
        r.groups = c.computedGroups ∧
        c.sumCalculated % 2 ^ 64 = c.global.totalInstances ∧
        (c.sumCalculated < 2 ^ 64 → c.sumCalculated = c.global.totalInstances)) ∧
    (c.structValidRun = true → c.sumCalculated % 2 ^ 64 ≠ c.global.totalInstances →
        c.validateForRun = .error .instanceCountMismatch) := by
  refine ⟨?_, ?_, ?_, ?_⟩
  · intro g _ hc
    unfold calcInstanceCount
    rw [if_pos hc]
  · intro g _ hc hp hlt
    unfold calcInstanceCount
    rw [if_neg (by simp [hc])]
    have hq : (0 : Rat) ≤ g.instances.percentage * (c.global.totalInstances : Rat) :=
      mul_nonneg hp (by positivity)
    have hnn : 0 ≤ goRound (g.instances.percentage * (c.global.totalInstances : Rat)) := by
      unfold goRound
      rw [if_neg (not_lt.mpr hq)]
      exact Int.le_floor.mpr (by push_cast; linarith)
    omega
  · intro r hr
    unfold Composition.validateForRun at hr
    by_cases h1 : c.structValidRun
    · rw [if_neg (by simp [h1])] at hr
      by_cases h2 : c.global.totalInstances =
          (c.computedGroups.map (fun g => g.calculatedInstanceCnt)).sum % (2 ^ 64)
      · rw [if_neg (by simpa using h2)] at hr
        by_cases h3 : Groups.idsUnique c.computedGroups
        · rw [if_pos h3] at hr
          have hrr : r = { c with groups := c.computedGroups } := by
            cases hr
            rfl
          subst hrr
          refine ⟨rfl, h2.symm, fun hsmall => ?_⟩
          have hs : c.sumCalculated % 2 ^ 64 = c.global.totalInstances := h2.symm
          rwa [Nat.mod_eq_of_lt hsmall] at hs
        · rw [if_neg h3] at hr
          cases hr
      · rw [if_pos (by simpa using h2)] at hr
        cases hr
    · rw [if_pos (by simp [h1])] at hr
      cases hr
  · intro h1 h2
    unfold Composition.validateForRun
    rw [if_neg (by simp [h1])]
    rw [if_pos (by simpa using fun h => h2 h.symm)]

/-- Witness for `claim5_validateForRun_instance_counts`: the count branch
on `compRunnable`'s first group, the percentage branch on
`compPercentage`'s second group (`round(1/2 * 4) = 2`), the exact-sum
consequence of `compRunnable`'s successful validation, and the
InstanceCountMismatch error on `compMismatched` (counts 1+2 against
total 2). -/
theorem claim5_witness :
    calcInstanceCount compRunnable.global.totalInstances
      (compRunnable.groups.getD 0 emptyGroup).instances = 1 ∧
    (calcInstanceCount compPercentage.global.totalInstances
        (compPercentage.groups.getD 1 emptyGroup).instances : Int) =
      goRound ((compPercentage.groups.getD 1 emptyGroup).instances.percentage *
        (compPercentage.global.totalInstances : Rat)) ∧
    compRunnable.validateForRun = .ok compRunnableValidatedRaw ∧
    compRunnable.sumCalculated % 2 ^ 64 = compRunnable.global.totalInstances ∧
    compMismatched.validateForRun = .error .instanceCountMismatch := by
  refine ⟨?_, ?_, by decide, ?_, ?_⟩
  · exact (claim5_validateForRun_instance_counts compRunnable).1 _ (by decide) (by decide)
  · refine (claim5_validateForRun_instance_counts compPercentage).2.1 _ (by decide) (by decide)
      (by decide) ?_
    have h24 : mkRat 1 2 * ((4 : Nat) : Rat) = 2 := by
      rw [Rat.mkRat_eq_div]
      norm_num
    show goRound (mkRat 1 2 * ((4 : Nat) : Rat)) < 2 ^ 64
    rw [h24]
    unfold goRound
    rw [if_neg (by norm_num)]
    have hfl : Int.floor ((2 : Rat) + 1/2) = 2 := by
      rw [Int.floor_eq_iff]
      constructor <;> norm_num
    rw [hfl]
    norm_num
  · exact ((claim5_validateForRun_instance_counts compRunnable).2.2.1
      compRunnableValidatedRaw (by decide)).2.1
  · exact (claim5_validateForRun_instance_counts compMismatched).2.2.2 (by decide) (by decide)

/-- C10: once `PrepareForRun` and `ValidateForRun` have succeeded, `doRun`
reads the runner from the engine's registry without a presence check, so
an advertised-but-unregistered runner reaches `run.ConfigType()` on a nil
interface (a nil dereference) instead of producing an error — unlike
`doBuild`, whose checked lookup returns the `unrecognized builder` error
in the analogous situation. -/
theorem claim10_unchecked_runner_lookup
    (runners builders : List String) (c cb c' c'' cb' : Composition)
    (m mb : TestPlanManifest)
    (hp : c.prepareForRun m = .ok c') (hv : c'.validateForRun = .ok c'')
    (hr : c''.global.runner ∉ runners)
    (hbp : cb.prepareForBuild mb = .ok cb') (hbv : cb'.validateForBuild = .ok ())
    (hb : cb'.global.builder ∉ builders) :
    Engine.doRunControl runners c m = RunStep.nilRunnerPanic ∧
    Engine.doBuildControl builders cb mb = BuildStep.unrecognizedBuilder := by
  constructor
  · unfold Engine.doRunControl
    rw [hp]
    simp only []
    rw [hv]
    simp [hr]
  · unfold Engine.doBuildControl
    rw [hbp]
    simp only []
    rw [hbv]
    simp [hb]

/-- Witness for `claim10_unchecked_runner_lookup`: `compRunnable` prepares
and validates successfully against `manifestRunnable`, and with an empty
engine registry `doRun` reaches the nil-runner dereference while `doBuild`
returns its unrecognized-builder error. -/
theorem claim10_witness :
    compRunnable.prepareForRun manifestRunnable = .ok compRunnablePrepared ∧
    compRunnablePrepared.validateForRun = .ok compRunnableValidated ∧
    compRunnableValidated.global.runner ∉ ([] : List String) ∧
    compRunnable.prepareForBuild manifestRunnable = .ok compRunnablePrepared ∧
    compRunnablePrepared.validateForBuild = .ok () ∧
    compRunnablePrepared.global.builder ∉ ([] : List String) ∧
    Engine.doRunControl [] compRunnable manifestRunnable = RunStep.nilRunnerPanic ∧
    Engine.doBuildControl [] compRunnable manifestRunnable = BuildStep.unrecognizedBuilder := by
  refine ⟨by decide, by decide, by decide, by decide, by decide, by decide, ?_, ?_⟩
  · exact (claim10_unchecked_runner_lookup [] [] compRunnable compRunnable
      compRunnablePrepared compRunnableValidated compRunnablePrepared
      manifestRunnable manifestRunnable (by decide) (by decide) (by decide)
      (by decide) (by decide) (by decide)).1
  · exact (claim10_unchecked_runner_lookup [] [] compRunnable compRunnable
      compRunnablePrepared compRunnableValidated compRunnablePrepared
      manifestRunnable manifestRunnable (by decide) (by decide) (by decide)
      (by decide) (by decide) (by decide)).2

end TG
